import Mathlib

/-!
Verification of the "Proof Journal Verification & Contribution Ledger" core of
the zk-github-contribution-verifier repository.

The on-chain core is `contracts/src/GitHubContributionVerifier.sol`; the
off-chain journal encoder is `buildJournalData` in `app/lib/utils.ts`
(the variant that ABI-encodes the tuple
`(bytes32, string, uint256, bytes32, string[])`, matching the contract's
`abi.decode`).  Byte strings are modelled as `List Nat` (one entry per byte),
`uint256` / `bytes32` values as `Nat` with explicit range conditions, and the
EVM-external collaborators (the sha256 precompile, the `SELECTOR()` staticcall
and the RISC Zero verifier) as explicit functional parameters.  A revert is an
`Except` error; EVM revert semantics roll the state back, which the
`submitFinalState` / `pipelineFinal` wrappers make explicit.
-/

set_option maxRecDepth 10000

deriving instance DecidableEq for Except

namespace ZkGithub

/-- Bytes are lists of naturals; each entry is one byte of a Solidity `bytes`
or `string` value (Solidity strings are raw byte arrays). -/
abbrev Bytes := List Nat

/-- Big-endian value of a byte list (how the EVM reads words). -/
def bytesToNat (b : Bytes) : Nat := b.foldl (fun acc d => acc * 256 + d) 0

/-- Big-endian byte representation of `n`, exactly `k` bytes (the EVM word
layout; high bytes of `n` beyond `k` bytes are dropped mod `256 ^ k`). -/
def natToBytesBE : Nat → Nat → Bytes
  | 0, _ => []
  | k + 1, n => natToBytesBE k (n / 256) ++ [n % 256]

/-- Slice of `k` bytes of `b` starting at position `i`. -/
def extract (b : Bytes) (i k : Nat) : Bytes := (b.drop i).take k

/-- The 32-byte EVM word of `b` at byte position `i`, as a natural number
(`calldataload` at offset `i`, given that the bounds checks have passed). -/
def word (b : Bytes) (i : Nat) : Nat := bytesToNat (extract b i 32)

/-- Upper bound Solidity's generated ABI decoder enforces on offsets and
lengths (`0xffffffffffffffff`). -/
def U64MAX : Nat := 2 ^ 64 - 1

/-- Maximal `uint256` value. -/
def UINT256_MAX : Nat := 2 ^ 256 - 1

/-- The journal record decoded by `submitContribution` (lines 76-86 of
`GitHubContributionVerifier.sol`): the tuple
`(bytes32 notaryKeyFingerprint, string url, uint256 timestamp,
bytes32 queriesHash, string[] extractedValues)`. -/
structure DecodedJournal where
  notaryKeyFingerprint : Nat
  url : Bytes
  timestamp : Nat
  queriesHash : Nat
  extractedValues : List Bytes
deriving DecidableEq, Repr

/-- Decoding of one dynamic `string`/`bytes` tail located at absolute byte
offset `off` of the ABI blob `b`, with the bounds checks Solidity 0.8's
generated calldata decoder performs: the length word must lie inside the blob,
the length must be at most `U64MAX`, and the character data must lie inside
the blob.  Any failure is the single generic ABI-decoding revert (no error
data), modelled as `Except Unit`. -/
def decodeDynBytes (b : Bytes) (off : Nat) : Except Unit Bytes :=
  if off + 31 < b.length then
    let len := word b off
    if len ≤ U64MAX then
      if off + 32 + len ≤ b.length then
        .ok (extract b (off + 32) len)
      else .error ()
    else .error ()
  else .error ()

/-- Decoding of the elements of a `string[]` tail: element `i` of the
remaining `k` elements has its (checked) relative offset in the word at
`base + 32 * i`, and its string tail at `base + offset`. -/
def decodeElems (b : Bytes) (base : Nat) : Nat → Nat → Except Unit (List Bytes)
  | _, 0 => .ok []
  | i, k + 1 =>
    let eoff := word b (base + 32 * i)
    if eoff ≤ U64MAX then
      match decodeDynBytes b (base + eoff) with
      | .error e => .error e
      | .ok s =>
        match decodeElems b base (i + 1) k with
        | .error e => .error e
        | .ok rest => .ok (s :: rest)
    else .error ()

/-- Decoding of a `string[]` tail at absolute offset `off`: checked length
word, then the element-offset area must lie inside the blob, then the
elements. -/
def decodeStringArray (b : Bytes) (off : Nat) : Except Unit (List Bytes) :=
  if off + 31 < b.length then
    let n := word b off
    if n ≤ U64MAX then
      if off + 32 + 32 * n ≤ b.length then
        decodeElems b (off + 32) 0 n
      else .error ()
    else .error ()
  else .error ()

/-- Embedding of
`abi.decode(journalData, (bytes32, string, uint256, bytes32, string[]))`
(lines 77-86 of `GitHubContributionVerifier.sol`): a 5-slot head, with the
`bytes32`/`uint256` fields inline and the `string` / `string[]` fields as
checked offsets into the tail section. -/
def abiDecodeJournal (b : Bytes) : Except Unit DecodedJournal :=
  if 160 ≤ b.length then
    let notaryKeyFingerprint := word b 0
    let off1 := word b 32
    let timestamp := word b 64
    let queriesHash := word b 96
    let off4 := word b 128
    if off1 ≤ U64MAX then
      match decodeDynBytes b off1 with
      | .error e => .error e
      | .ok url =>
        if off4 ≤ U64MAX then
          match decodeStringArray b off4 with
          | .error e => .error e
          | .ok extractedValues =>
            .ok ⟨notaryKeyFingerprint, url, timestamp, queriesHash, extractedValues⟩
        else .error ()
    else .error ()
  else .error ()

/-- Revert reasons of `submitContribution`.  `abiDecodeFailed` is the generic
(data-less) revert of `abi.decode`; `requireFailed` carries a `require` reason
string; `arithmeticOverflow` is the checked-arithmetic `Panic(0x11)`; the
remaining constructors are the contract's custom errors. -/
inductive SubmitError where
  | abiDecodeFailed : SubmitError
  | requireFailed : String → SubmitError
  | arithmeticOverflow : SubmitError
  | invalidNotaryKeyFingerprint : SubmitError
  | invalidQueriesHash : SubmitError
  | invalidUrl : SubmitError
  | invalidContributions : SubmitError
  | zkProofVerificationFailed : String → SubmitError
deriving DecidableEq, Repr

/-- Loop of `parseUint` (lines 242-246): each byte must be an ASCII digit
(else `require` fails with "Invalid number string"), and the Horner step
`result * 10 + (digit - 48)` is checked `uint256` arithmetic. -/
def parseUintGo : Nat → Bytes → Except SubmitError Nat
  | acc, [] => .ok acc
  | acc, d :: rest =>
    if 48 ≤ d ∧ d ≤ 57 then
      if acc * 10 + (d - 48) ≤ UINT256_MAX then
        parseUintGo (acc * 10 + (d - 48)) rest
      else .error .arithmeticOverflow
    else .error (.requireFailed "Invalid number string")

/-- Embedding of `parseUint` (lines 239-248 of
`GitHubContributionVerifier.sol`). -/
def parseUint (s : Bytes) : Except SubmitError Nat := parseUintGo 0 s

/-- Immutable configuration set in the constructor (lines 56-66). -/
structure Config where
  EXPECTED_NOTARY_KEY_FINGERPRINT : Nat
  EXPECTED_QUERIES_HASH : Nat
  expectedUrlPattern : Bytes
deriving DecidableEq, Repr

/-- Embedding of the four field checks of `submitContribution`
(lines 95-113), in source order.  The URL check compares
`keccak256(bytes(url))` with `keccak256(bytes(expectedUrlPattern))`, the
standard Solidity string-equality idiom; it is modelled as byte-string
equality. -/
def validateFields (cfg : Config) (notaryKeyFingerprint queriesHash : Nat)
    (url : Bytes) (contributions : Nat) : Except SubmitError Unit :=
  if notaryKeyFingerprint ≠ cfg.EXPECTED_NOTARY_KEY_FINGERPRINT then
    .error .invalidNotaryKeyFingerprint
  else if queriesHash ≠ cfg.EXPECTED_QUERIES_HASH then
    .error .invalidQueriesHash
  else if url ≠ cfg.expectedUrlPattern then
    .error .invalidUrl
  else if contributions = 0 ∨ contributions > 1000000 then
    .error .invalidContributions
  else .ok ()

/-- ZK proof program identifier, `IMAGE_ID` (lines 18-19). -/
def IMAGE_ID : Nat := 0x01be2503b0560b210ec953401b3a091ff0295a98aafdc1e3019539a0cb5365f2

/-- Hex alphabet used by the contract's hex formatters (line 207). -/
def hexAlphabet : List Char :=
  "0123456789abcdef".toList

/-- Hex character of a nibble. -/
def hexChar (n : Nat) : Char := hexAlphabet.getD n '0'

/-- Hex characters of a byte list, two characters per byte. -/
def bytesToHexChars (b : Bytes) : List Char :=
  b.foldr (fun d acc => hexChar (d / 16 % 16) :: hexChar (d % 16) :: acc) []

/-- Embedding of `toHexString(bytes32)` (lines 206-216): the `0x`-prefixed
64-character hex rendering of a `bytes32` value. -/
def toHexString (value : Nat) : String :=
  "0x" ++ String.mk (bytesToHexChars (natToBytesBE 32 value))

/-- Decimal digit bytes of `n`, most significant first, in ASCII
(fuel-indexed division loop; `decDigitsAux n n` extracts all digits). -/
def decDigitsAux : Nat → Nat → List Nat
  | 0, _ => []
  | _ + 1, 0 => []
  | fuel + 1, n + 1 => ((n + 1) % 10) :: decDigitsAux fuel ((n + 1) / 10)

/-- Decimal ASCII rendering of a natural number, as a byte string: this is
both `uintToString` of the contract (lines 219-236) and
`contributions.toString()` of `buildJournalData`. -/
def natToDecimalBytes (n : Nat) : Bytes :=
  if n = 0 then [48] else (decDigitsAux n n).reverse.map (fun d => d + 48)

/-- Embedding of `uintToString` (lines 219-236). -/
def uintToString (value : Nat) : String :=
  String.mk ((natToDecimalBytes value).map Char.ofNat)

/-- Embedding of `bytesToHexString` (lines 251-268): hex rendering of the
first 32 bytes. -/
def bytesToHexString (data : Bytes) : String :=
  if data.length = 0 then "0x"
  else "0x" ++ String.mk (bytesToHexChars (data.take 32))

/-- Outcome of the external `VERIFIER.verify` call: success, a revert with an
`Error(string)` reason, or a revert with other (low-level) return data
(the two `catch` arms of lines 145-192). -/
inductive VerifyOutcome where
  | ok : VerifyOutcome
  | errString : String → VerifyOutcome
  | errLowLevel : Bytes → VerifyOutcome
deriving DecidableEq, Repr

/-- Debug details appended to both `ZKProofVerificationFailed` reasons
(lines 150-166 and 172-189).  `bytes4` values are cast to `bytes32`
left-aligned, hence the `2 ^ 224` factor. -/
def zkFailDetails (expectedSelector receivedSelector expectedClaimDigest
    receivedClaimDigest journalDigest : Nat) (sealBytes : Bytes) : String :=
  " | Expected IMAGE_ID: " ++ toHexString IMAGE_ID ++
  " | Expected selector: " ++ toHexString (expectedSelector * 2 ^ 224) ++
  " | Received selector: " ++ toHexString (receivedSelector * 2 ^ 224) ++
  " | Expected claim digest: " ++ toHexString expectedClaimDigest ++
  " | Received claim digest: " ++ toHexString receivedClaimDigest ++
  " | Journal digest: " ++ toHexString journalDigest ++
  " | Seal length: " ++ uintToString sealBytes.length ++
  " | Seal (first 32b): " ++ bytesToHexString sealBytes

/-- Reason built in the `catch Error(string memory reason)` arm
(lines 147-168). -/
def zkFailMsgString (reason : String) (expectedSelector receivedSelector
    expectedClaimDigest receivedClaimDigest journalDigest : Nat)
    (sealBytes : Bytes) : String :=
  "Verification failed: " ++ reason ++
    zkFailDetails expectedSelector receivedSelector expectedClaimDigest
      receivedClaimDigest journalDigest sealBytes

/-- Reason built in the low-level `catch` arm (lines 169-191). -/
def zkFailMsgLowLevel (lowLevelData : Bytes) (expectedSelector receivedSelector
    expectedClaimDigest receivedClaimDigest journalDigest : Nat)
    (sealBytes : Bytes) : String :=
  "Verification failed (low-level)" ++
    zkFailDetails expectedSelector receivedSelector expectedClaimDigest
      receivedClaimDigest journalDigest sealBytes ++
    " | Error data: " ++ bytesToHexString lowLevelData

/-- Contract storage: the
`mapping(string => mapping(string => uint256)) contributionsByRepoAndUser`
(lines 31-33), with the EVM's zero default. -/
structure ContractState where
  contributionsByRepoAndUser : Bytes → Bytes → Nat

/-- The `ContributionVerified` event (lines 36-42). -/
structure ContributionVerifiedEvent where
  username : Bytes
  contributions : Nat
  repoUrl : Bytes
  timestamp : Nat
  blockNumber : Nat
deriving DecidableEq, Repr

/-- Storage write of line 194:
`contributionsByRepoAndUser[repoNameWithOwner][username] = contributions`. -/
def updateContributions (σ : ContractState) (repo user : Bytes) (c : Nat) :
    ContractState :=
  ⟨fun r u => if r = repo ∧ u = user then c else σ.contributionsByRepoAndUser r u⟩

/-- Embedding of `submitContribution` (lines 72-203).  External collaborators
are explicit parameters: `sha` is the sha256 precompile (a byte string to a
`bytes32` value), `selOk`/`selData` the result of the `SELECTOR()` staticcall
on the verifier, and `V sealBytes imageId journalDigest` the outcome of
`VERIFIER.verify`.  The result is either a revert reason or the post-call
storage together with the emitted `ContributionVerified` event. -/
def submitContribution (sha : Bytes → Nat) (selOk : Bool) (selData : Bytes)
    (V : Bytes → Nat → Nat → VerifyOutcome) (cfg : Config) (blockNumber : Nat)
    (σ : ContractState) (journalData sealBytes : Bytes) :
    Except SubmitError (ContractState × ContributionVerifiedEvent) :=
  match abiDecodeJournal journalData with
  | .error _ => .error .abiDecodeFailed
  | .ok j =>
    if j.extractedValues.length < 3 then
      .error (.requireFailed "Invalid extracted values length")
    else
      let repoNameWithOwner := j.extractedValues.getD 0 []
      let username := j.extractedValues.getD 1 []
      match parseUint (j.extractedValues.getD 2 []) with
      | .error e => .error e
      | .ok contributions =>
        match validateFields cfg j.notaryKeyFingerprint j.queriesHash j.url
            contributions with
        | .error e => .error e
        | .ok _ =>
          let journalDigest := sha journalData
          let receivedSelector :=
            if 4 ≤ sealBytes.length then bytesToNat (sealBytes.take 4) else 0
          let expectedSelector :=
            if selOk ∧ 32 ≤ selData.length then bytesToNat (selData.take 4) else 0
          let receivedClaimDigest :=
            if 36 ≤ sealBytes.length then bytesToNat (extract sealBytes 4 32) else 0
          let expectedClaimDigest :=
            sha ([1] ++ natToBytesBE 32 0 ++ natToBytesBE 32 IMAGE_ID ++
              natToBytesBE 32 (sha (natToBytesBE 32 journalDigest ++ natToBytesBE 32 0)))
          match V sealBytes IMAGE_ID journalDigest with
          | .errString reason =>
            .error (.zkProofVerificationFailed
              (zkFailMsgString reason expectedSelector receivedSelector
                expectedClaimDigest receivedClaimDigest journalDigest sealBytes))
          | .errLowLevel lowLevelData =>
            .error (.zkProofVerificationFailed
              (zkFailMsgLowLevel lowLevelData expectedSelector receivedSelector
                expectedClaimDigest receivedClaimDigest journalDigest sealBytes))
          | .ok =>
            .ok (updateContributions σ repoNameWithOwner username contributions,
              ⟨username, contributions, j.url, j.timestamp, blockNumber⟩)

/-- Post-call storage of a `submitContribution` transaction: on success the
returned storage, on a revert the unchanged pre-call storage (EVM rollback). -/
def submitFinalState (sha : Bytes → Nat) (selOk : Bool) (selData : Bytes)
    (V : Bytes → Nat → Nat → VerifyOutcome) (cfg : Config) (blockNumber : Nat)
    (σ : ContractState) (journalData sealBytes : Bytes) : ContractState :=
  match submitContribution sha selOk selData V cfg blockNumber σ journalData sealBytes with
  | .ok (σ', _) => σ'
  | .error _ => σ

/-- Events emitted by a `submitContribution` transaction: one
`ContributionVerified` on success, none on a revert (EVM rollback). -/
def submitEvents (sha : Bytes → Nat) (selOk : Bool) (selData : Bytes)
    (V : Bytes → Nat → Nat → VerifyOutcome) (cfg : Config) (blockNumber : Nat)
    (σ : ContractState) (journalData sealBytes : Bytes) :
    List ContributionVerifiedEvent :=
  match submitContribution sha selOk selData V cfg blockNumber σ journalData sealBytes with
  | .ok (_, ev) => [ev]
  | .error _ => []

/-- Number of zero bytes padding a tail of `n` bytes to a 32-byte multiple. -/
def padLen (n : Nat) : Nat := (32 - n % 32) % 32

/-- Canonical ABI encoding of one dynamic `string` tail: 32-byte length word,
the bytes, zero padding to a 32-byte multiple. -/
def encDynBytes (s : Bytes) : Bytes :=
  natToBytesBE 32 s.length ++ s ++ List.replicate (padLen s.length) 0

/-- Offsets and concatenated tails of the elements of a `string[]` encoding;
`off` is the offset (relative to the start of the element area) at which the
next element tail will be placed. -/
def encStringArrayAux : List Bytes → Nat → (List Nat × Bytes)
  | [], _ => ([], [])
  | v :: vs, off =>
    let t := encDynBytes v
    let p := encStringArrayAux vs (off + t.length)
    (off :: p.1, t ++ p.2)

/-- Canonical ABI encoding of a `string[]` tail: length word, element offset
words, element tails in order. -/
def encStringArray (vs : List Bytes) : Bytes :=
  let p := encStringArrayAux vs (32 * vs.length)
  natToBytesBE 32 vs.length ++ (p.1.map (natToBytesBE 32)).flatten ++ p.2

/-- Embedding of the
`encodeAbiParameters([bytes32, string, uint256, bytes32, string[]], ...)`
call of `buildJournalData` (`app/lib/utils.ts` lines 126-135): canonical
head/tail tuple encoding with a 5-slot head, the `url` tail first and the
`string[]` tail second. -/
def encodeJournalData (notaryFp : Nat) (url : Bytes) (ts qh : Nat)
    (vals : List Bytes) : Bytes :=
  let urlTail := encDynBytes url
  let arrTail := encStringArray vals
  natToBytesBE 32 notaryFp ++ natToBytesBE 32 160 ++ natToBytesBE 32 ts ++
    natToBytesBE 32 qh ++ natToBytesBE 32 (160 + urlTail.length) ++
    urlTail ++ arrTail

/-- Embedding of the journal-construction step of `buildJournalData`
(`app/lib/utils.ts` lines 119-137): the extracted values are sent as the
three-element string array
`[repoNameWithOwner, username, contributions.toString()]`, with the
contribution count rendered in decimal. -/
def buildJournalData (notaryFp : Nat) (url : Bytes) (ts qh : Nat)
    (repo user : Bytes) (contributions : Nat) : Bytes :=
  encodeJournalData notaryFp url ts qh [repo, user, natToDecimalBytes contributions]

/-- Modelled from the spec: section 7 names two decode failure reasons,
`CodecError::Malformed` (inconsistent head/tail layout: offsets out of range,
wrong field count) and `CodecError::Truncated` (fewer bytes than the layout
demands).  The contract has no such type — `abi.decode` reverts without error
data — so this type exists only for the spec-side comparison decoders. -/
inductive CodecError where
  | Malformed : CodecError
  | Truncated : CodecError
deriving DecidableEq, Repr

/-- Modelled from the spec: dynamic-tail decoding with the spec's
`CodecError` discrimination.  The checks are those of `decodeDynBytes`;
an out-of-range or oversized offset word is `Malformed`, character data
running past the end of the blob is `Truncated`. -/
def decodeDynBytesSpec (b : Bytes) (off : Nat) : Except CodecError Bytes :=
  if off + 31 < b.length then
    let len := word b off
    if len ≤ U64MAX then
      if off + 32 + len ≤ b.length then
        .ok (extract b (off + 32) len)
      else .error .Truncated
    else .error .Malformed
  else .error .Malformed

/-- Modelled from the spec: `string[]` decoding with `CodecError`
discrimination, checks as in `decodeElems`. -/
def decodeElemsSpec (b : Bytes) (base : Nat) :
    Nat → Nat → Except CodecError (List Bytes)
  | _, 0 => .ok []
  | i, k + 1 =>
    let eoff := word b (base + 32 * i)
    if eoff ≤ U64MAX then
      match decodeDynBytesSpec b (base + eoff) with
      | .error e => .error e
      | .ok s =>
        match decodeElemsSpec b base (i + 1) k with
        | .error e => .error e
        | .ok rest => .ok (s :: rest)
    else .error .Malformed

/-- Modelled from the spec: `string[]` tail decoding with `CodecError`
discrimination, checks as in `decodeStringArray`. -/
def decodeStringArraySpec (b : Bytes) (off : Nat) : Except CodecError (List Bytes) :=
  if off + 31 < b.length then
    let n := word b off
    if n ≤ U64MAX then
      if off + 32 + 32 * n ≤ b.length then
        decodeElemsSpec b (off + 32) 0 n
      else .error .Truncated
    else .error .Malformed
  else .error .Malformed

/-- Modelled from the spec: the five-field journal schema decoder written from
the spec's head/tail layout description, but with the field list the code
actually uses, and with the spec's `CodecError` discrimination.  Serves as
the spec-side definition for the refinement comparison with
`abiDecodeJournal`. -/
def decodeJournalSpec5 (b : Bytes) : Except CodecError DecodedJournal :=
  if 160 ≤ b.length then
    let notaryKeyFingerprint := word b 0
    let off1 := word b 32
    let timestamp := word b 64
    let queriesHash := word b 96
    let off4 := word b 128
    if off1 ≤ U64MAX then
      match decodeDynBytesSpec b off1 with
      | .error e => .error e
      | .ok url =>
        if off4 ≤ U64MAX then
          match decodeStringArraySpec b off4 with
          | .error e => .error e
          | .ok extractedValues =>
            .ok ⟨notaryKeyFingerprint, url, timestamp, queriesHash, extractedValues⟩
        else .error .Malformed
    else .error .Malformed
  else .error .Truncated

/-- Record shape of the eight-field journal layout claimed by the spec
(section 6): `bytes32 notaryFingerprint, string method, string url,
uint256 timestamp, bytes32 queriesHash, string repository, string username,
uint256 contributions`. -/
structure Spec8Record where
  notaryFingerprint : Nat
  method : Bytes
  url : Bytes
  timestamp : Nat
  queriesHash : Nat
  repository : Bytes
  username : Bytes
  contributions : Nat
deriving DecidableEq, Repr

/-- Modelled from the spec: decoder for the eight-field head/tail layout the
spec claims in section 6 (an 8-slot head; `method`, `url`, `repository` and
`username` as offset tails).  Used only to compare the spec's claimed schema
with the schema the code implements. -/
def decodeJournalSpec8 (b : Bytes) : Except Unit Spec8Record :=
  if 256 ≤ b.length then
    let fp := word b 0
    let offMethod := word b 32
    let offUrl := word b 64
    let ts := word b 96
    let qh := word b 128
    let offRepo := word b 160
    let offUser := word b 192
    let contributions := word b 224
    if offMethod ≤ U64MAX ∧ offUrl ≤ U64MAX ∧ offRepo ≤ U64MAX ∧ offUser ≤ U64MAX then
      match decodeDynBytes b offMethod, decodeDynBytes b offUrl,
          decodeDynBytes b offRepo, decodeDynBytes b offUser with
      | .ok method, .ok url, .ok repo, .ok user =>
        .ok ⟨fp, method, url, ts, qh, repo, user, contributions⟩
      | _, _, _, _ => .error ()
    else .error ()
  else .error ()

/-- Forgetting the spec's `CodecError` discrimination, for comparison with
the code's single generic decode failure. -/
def dropErr {α : Type} : Except CodecError α → Except Unit α
  | .ok a => .ok a
  | .error _ => .error ()

/-- Modelled from the spec: one history entry of the ContributionLedger
(spec section 3, `ContributionRecord`): repository, username, contributions,
timestamp, blockHeight, url.  The ledger accessors are declared in the
contracts README (`getLatestContribution`, `getContributionHistory`,
`getContributionCount`, `totalVerifiedContributions`) but their
implementation is absent from the sources. -/
structure ContributionRecord where
  repository : Bytes
  username : Bytes
  contributions : Nat
  timestamp : Nat
  blockHeight : Nat
  url : Bytes
deriving DecidableEq, Repr

/-- Modelled from the spec: the ContributionLedger state (spec sections 3 and
4.4): per-(repository, username) latest contribution count, per-username
ordered history, and the global `totalVerifiedContributions` counter. -/
structure Ledger where
  latest : Bytes → Bytes → Nat
  history : Bytes → List ContributionRecord
  total : Nat

/-- Modelled from the spec: `ContributionLedger.record` (spec section 4.4):
overwrite `latestContributions`, append a history record preserving insertion
order, increment the global counter by exactly 1. -/
def Ledger.record (L : Ledger) (repository username : Bytes)
    (contributions timestamp blockHeight : Nat) (url : Bytes) : Ledger where
  latest := fun r u =>
    if r = repository ∧ u = username then contributions else L.latest r u
  history := fun u =>
    if u = username then
      L.history u ++ [⟨repository, username, contributions, timestamp, blockHeight, url⟩]
    else L.history u
  total := L.total + 1

/-- Modelled from the spec: the `count(username)` accessor (README
`getContributionCount`). -/
def Ledger.count (L : Ledger) (username : Bytes) : Nat := (L.history username).length

/-- Modelled from the spec: the `totalVerifiedContributions()` accessor. -/
def Ledger.totalVerifiedContributions (L : Ledger) : Nat := L.total

/-- Ledger with no entries. -/
def Ledger.empty : Ledger := ⟨fun _ _ => 0, fun _ => [], 0⟩

/-- Modelled from the spec: the full submission pipeline of spec section 2 —
the contract call, followed (on acceptance, and only then) by exactly one
`ContributionLedger.record` call with the decoded fields.  The contract part
is `submitContribution` as embedded from the source; the ledger part models
the history/counter bookkeeping whose implementation is absent from the
sources. -/
def fullPipeline (sha : Bytes → Nat) (selOk : Bool) (selData : Bytes)
    (V : Bytes → Nat → Nat → VerifyOutcome) (cfg : Config) (blockNumber : Nat)
    (s : ContractState × Ledger) (journalData sealBytes : Bytes) :
    Except SubmitError ((ContractState × Ledger) × ContributionVerifiedEvent) :=
  match submitContribution sha selOk selData V cfg blockNumber s.1 journalData sealBytes with
  | .error e => .error e
  | .ok (σ', ev) =>
    match abiDecodeJournal journalData with
    | .error _ => .error .abiDecodeFailed
    | .ok j =>
      .ok ((σ', s.2.record (j.extractedValues.getD 0 []) ev.username
        ev.contributions ev.timestamp blockNumber ev.repoUrl), ev)

/-- Post-transaction state of the full pipeline: rollback to the pre-state on
any error. -/
def pipelineFinal (sha : Bytes → Nat) (selOk : Bool) (selData : Bytes)
    (V : Bytes → Nat → Nat → VerifyOutcome) (cfg : Config) (blockNumber : Nat)
    (s : ContractState × Ledger) (journalData sealBytes : Bytes) :
    ContractState × Ledger :=
  match fullPipeline sha selOk selData V cfg blockNumber s journalData sealBytes with
  | .ok (s', _) => s'
  | .error _ => s

/-- Events of the full pipeline: none on any error. -/
def pipelineEvents (sha : Bytes → Nat) (selOk : Bool) (selData : Bytes)
    (V : Bytes → Nat → Nat → VerifyOutcome) (cfg : Config) (blockNumber : Nat)
    (s : ContractState × Ledger) (journalData sealBytes : Bytes) :
    List ContributionVerifiedEvent :=
  match fullPipeline sha selOk selData V cfg blockNumber s journalData sealBytes with
  | .ok (_, ev) => [ev]
  | .error _ => []

/-! Basic facts about the byte-level primitives. -/

theorem natToBytesBE_length (k n : Nat) : (natToBytesBE k n).length = k := by
  induction k generalizing n with
  | zero => rfl
  | succ k ih => simp [natToBytesBE, ih]

theorem bytesToNat_append_singleton (xs : Bytes) (d : Nat) :
    bytesToNat (xs ++ [d]) = bytesToNat xs * 256 + d := by
  simp [bytesToNat, List.foldl_append]

theorem bytesToNat_natToBytesBE (k n : Nat) :
    bytesToNat (natToBytesBE k n) = n % 256 ^ k := by
  induction k generalizing n with
  | zero => simp [natToBytesBE, bytesToNat, Nat.mod_one]
  | succ k ih =>
    rw [natToBytesBE, bytesToNat_append_singleton, ih, pow_succ', Nat.mod_mul]
    ring

theorem bytesToNat_natToBytesBE32 (n : Nat) (h : n < 2 ^ 256) :
    bytesToNat (natToBytesBE 32 n) = n := by
  rw [bytesToNat_natToBytesBE]
  have : (256 : Nat) ^ 32 = 2 ^ 256 := by norm_num
  rw [this]
  exact Nat.mod_eq_of_lt h

theorem extract_at (pre mid post : Bytes) :
    extract (pre ++ (mid ++ post)) pre.length mid.length = mid := by
  unfold extract
  rw [List.drop_left, List.take_left]

theorem word_at (pre w post : Bytes) (hw : w.length = 32) :
    word (pre ++ (w ++ post)) pre.length = bytesToNat w := by
  have h := extract_at pre w post
  rw [hw] at h
  unfold word
  rw [h]

theorem word_at_value (pre : Bytes) (v : Nat) (post : Bytes) (hv : v < 2 ^ 256) :
    word (pre ++ (natToBytesBE 32 v ++ post)) pre.length = v := by
  rw [word_at pre _ post (natToBytesBE_length 32 v), bytesToNat_natToBytesBE32 v hv]

theorem padLen_lt (n : Nat) : padLen n < 32 := by
  unfold padLen
  omega

theorem encDynBytes_length (s : Bytes) :
    (encDynBytes s).length = 32 + s.length + padLen s.length := by
  simp [encDynBytes, natToBytesBE_length]
  omega

theorem encDynBytes_assoc (s : Bytes) :
    encDynBytes s = natToBytesBE 32 s.length ++ (s ++ List.replicate (padLen s.length) 0) := by
  simp [encDynBytes]

/-- Decoding a dynamic tail that sits at position `pre.length` of the blob
recovers exactly the encoded byte string. -/
theorem decodeDynBytes_at (pre s post : Bytes) (hs : s.length ≤ U64MAX) :
    decodeDynBytes (pre ++ (encDynBytes s ++ post)) pre.length = .ok s := by
  have hslt : s.length < 2 ^ 256 := by
    have : U64MAX < 2 ^ 256 := by norm_num [U64MAX]
    omega
  have hBlen : (pre ++ (encDynBytes s ++ post)).length =
      pre.length + (32 + s.length + padLen s.length) + post.length := by
    simp [List.length_append, encDynBytes_length]
    omega
  have hword : word (pre ++ (encDynBytes s ++ post)) pre.length = s.length := by
    have h1 : pre ++ (encDynBytes s ++ post) =
        pre ++ (natToBytesBE 32 s.length ++ (s ++ (List.replicate (padLen s.length) 0 ++ post))) := by
      rw [encDynBytes_assoc]
      simp [List.append_assoc]
    rw [h1]
    exact word_at_value pre s.length _ hslt
  have hextract : extract (pre ++ (encDynBytes s ++ post)) (pre.length + 32) s.length = s := by
    have h1 : pre ++ (encDynBytes s ++ post) =
        (pre ++ natToBytesBE 32 s.length) ++ (s ++ (List.replicate (padLen s.length) 0 ++ post)) := by
      rw [encDynBytes_assoc]
      simp [List.append_assoc]
    have h2 : (pre ++ natToBytesBE 32 s.length).length = pre.length + 32 := by
      simp [List.length_append, natToBytesBE_length]
    rw [h1, ← h2]
    exact extract_at (pre ++ natToBytesBE 32 s.length) s _
  unfold decodeDynBytes
  rw [hword, hBlen]
  rw [if_pos (by omega), if_pos hs, if_pos (by omega), hextract]

/-- Reading a 32-byte word at a stated position of a blob split around it. -/
theorem word_read (b pre post : Bytes) (v P : Nat)
    (hb : b = pre ++ (natToBytesBE 32 v ++ post)) (hP : P = pre.length)
    (hv : v < 2 ^ 256) : word b P = v := by
  subst hb hP
  exact word_at_value pre v post hv

/-- Decoding a dynamic tail at a stated position of a blob split around it. -/
theorem decodeDynBytes_read (b pre s post : Bytes) (P : Nat)
    (hb : b = pre ++ (encDynBytes s ++ post)) (hP : P = pre.length)
    (hs : s.length ≤ U64MAX) : decodeDynBytes b P = .ok s := by
  subst hb hP
  exact decodeDynBytes_at pre s post hs

/-- Explicit segment layout of the canonical `string[]` encoding of a
three-element array: length word 3, the three element offsets, the three
element tails in order. -/
theorem encStringArray_three (r u d : Bytes) :
    encStringArray [r, u, d] =
      natToBytesBE 32 3 ++ (natToBytesBE 32 96 ++
      (natToBytesBE 32 (96 + (encDynBytes r).length) ++
      (natToBytesBE 32 (96 + (encDynBytes r).length + (encDynBytes u).length) ++
      (encDynBytes r ++ (encDynBytes u ++ encDynBytes d))))) := by
  simp [encStringArray, encStringArrayAux, List.append_assoc]

/-- One resolution step of `decodeElems` when the offset check passes and both
the element and the remaining elements decode. -/
theorem decodeElems_cons (b : Bytes) (base i k : Nat) (s : Bytes)
    (rest : List Bytes) (h1 : word b (base + 32 * i) ≤ U64MAX)
    (h2 : decodeDynBytes b (base + word b (base + 32 * i)) = .ok s)
    (h3 : decodeElems b base (i + 1) k = .ok rest) :
    decodeElems b base i (k + 1) = .ok (s :: rest) := by
  simp only [decodeElems, if_pos h1, h2, h3]

/-- Fully right-associated segment layout of the canonical journal encoding
with a three-element extracted-values array. -/
theorem encodeJournalData_three_eq (fp ts qh : Nat) (url r u d : Bytes) :
    encodeJournalData fp url ts qh [r, u, d] =
      natToBytesBE 32 fp ++ (natToBytesBE 32 160 ++ (natToBytesBE 32 ts ++
      (natToBytesBE 32 qh ++ (natToBytesBE 32 (160 + (encDynBytes url).length) ++
      (encDynBytes url ++ (natToBytesBE 32 3 ++ (natToBytesBE 32 96 ++
      (natToBytesBE 32 (96 + (encDynBytes r).length) ++
      (natToBytesBE 32 (96 + (encDynBytes r).length + (encDynBytes u).length) ++
      (encDynBytes r ++ (encDynBytes u ++ encDynBytes d))))))))))) := by
  simp only [encodeJournalData]
  rw [encStringArray_three]
  simp [List.append_assoc]

/-- Word read of the canonical journal encoding at one head or array-offset
slot; the byte position follows the segment layout of
encodeJournalData_three_eq. -/
theorem encJD_w0 (fp ts qh : Nat) (url r u d : Bytes) (hfp : fp < 2 ^ 256) :
    word (encodeJournalData fp url ts qh [r, u, d]) (0) = fp := by
  apply word_read _ ([] : Bytes)
    (natToBytesBE 32 160 ++ (natToBytesBE 32 ts ++ (natToBytesBE 32 qh ++ (natToBytesBE 32 (160 + (encDynBytes url).length) ++ (encDynBytes url ++ (natToBytesBE 32 3 ++ (natToBytesBE 32 96 ++ (natToBytesBE 32 (96 + (encDynBytes r).length) ++ (natToBytesBE 32 (96 + (encDynBytes r).length + (encDynBytes u).length) ++ (encDynBytes r ++ (encDynBytes u ++ (encDynBytes d))))))))))))
    (fp) (0)
    (by rw [encodeJournalData_three_eq, List.nil_append])
    (by simp only [List.length_append, List.length_nil, natToBytesBE_length]; try omega)
    (hfp)

/-- Word read of the canonical journal encoding at one head or array-offset
slot; the byte position follows the segment layout of
encodeJournalData_three_eq. -/
theorem encJD_w32 (fp ts qh : Nat) (url r u d : Bytes) :
    word (encodeJournalData fp url ts qh [r, u, d]) (32) = 160 := by
  apply word_read _ (natToBytesBE 32 fp)
    (natToBytesBE 32 ts ++ (natToBytesBE 32 qh ++ (natToBytesBE 32 (160 + (encDynBytes url).length) ++ (encDynBytes url ++ (natToBytesBE 32 3 ++ (natToBytesBE 32 96 ++ (natToBytesBE 32 (96 + (encDynBytes r).length) ++ (natToBytesBE 32 (96 + (encDynBytes r).length + (encDynBytes u).length) ++ (encDynBytes r ++ (encDynBytes u ++ (encDynBytes d)))))))))))
    (160) (32)
    (by rw [encodeJournalData_three_eq])
    (by simp only [List.length_append, List.length_nil, natToBytesBE_length]; try omega)
    (by norm_num)

/-- Word read of the canonical journal encoding at one head or array-offset
slot; the byte position follows the segment layout of
encodeJournalData_three_eq. -/
theorem encJD_w64 (fp ts qh : Nat) (url r u d : Bytes) (hts : ts < 2 ^ 256) :
    word (encodeJournalData fp url ts qh [r, u, d]) (64) = ts := by
  apply word_read _ (natToBytesBE 32 fp ++ natToBytesBE 32 160)
    (natToBytesBE 32 qh ++ (natToBytesBE 32 (160 + (encDynBytes url).length) ++ (encDynBytes url ++ (natToBytesBE 32 3 ++ (natToBytesBE 32 96 ++ (natToBytesBE 32 (96 + (encDynBytes r).length) ++ (natToBytesBE 32 (96 + (encDynBytes r).length + (encDynBytes u).length) ++ (encDynBytes r ++ (encDynBytes u ++ (encDynBytes d))))))))))
    (ts) (64)
    (by rw [encodeJournalData_three_eq, List.append_assoc])
    (by simp only [List.length_append, List.length_nil, natToBytesBE_length]; try omega)
    (hts)

/-- Word read of the canonical journal encoding at one head or array-offset
slot; the byte position follows the segment layout of
encodeJournalData_three_eq. -/
theorem encJD_w96 (fp ts qh : Nat) (url r u d : Bytes) (hqh : qh < 2 ^ 256) :
    word (encodeJournalData fp url ts qh [r, u, d]) (96) = qh := by
  apply word_read _ (natToBytesBE 32 fp ++ natToBytesBE 32 160 ++ natToBytesBE 32 ts)
    (natToBytesBE 32 (160 + (encDynBytes url).length) ++ (encDynBytes url ++ (natToBytesBE 32 3 ++ (natToBytesBE 32 96 ++ (natToBytesBE 32 (96 + (encDynBytes r).length) ++ (natToBytesBE 32 (96 + (encDynBytes r).length + (encDynBytes u).length) ++ (encDynBytes r ++ (encDynBytes u ++ (encDynBytes d)))))))))
    (qh) (96)
    (by rw [encodeJournalData_three_eq, List.append_assoc, List.append_assoc])
    (by simp only [List.length_append, List.length_nil, natToBytesBE_length]; try omega)
    (hqh)

/-- Word read of the canonical journal encoding at one head or array-offset
slot; the byte position follows the segment layout of
encodeJournalData_three_eq. -/
theorem encJD_w128 (fp ts qh : Nat) (url r u d : Bytes) (hurl : url.length ≤ 2 ^ 32) :
    word (encodeJournalData fp url ts qh [r, u, d]) (128) = 160 + (encDynBytes url).length := by
  have hU := encDynBytes_length url
  have hR := encDynBytes_length r
  have hUu := encDynBytes_length u
  have hpU := padLen_lt url.length
  have hpR := padLen_lt r.length
  have hpUu := padLen_lt u.length
  have hU64 : U64MAX = 18446744073709551615 := by norm_num [U64MAX]
  apply word_read _ (natToBytesBE 32 fp ++ natToBytesBE 32 160 ++ natToBytesBE 32 ts ++ natToBytesBE 32 qh)
    (encDynBytes url ++ (natToBytesBE 32 3 ++ (natToBytesBE 32 96 ++ (natToBytesBE 32 (96 + (encDynBytes r).length) ++ (natToBytesBE 32 (96 + (encDynBytes r).length + (encDynBytes u).length) ++ (encDynBytes r ++ (encDynBytes u ++ (encDynBytes d))))))))
    (160 + (encDynBytes url).length) (128)
    (by rw [encodeJournalData_three_eq, List.append_assoc, List.append_assoc, List.append_assoc])
    (by simp only [List.length_append, List.length_nil, natToBytesBE_length]; try omega)
    (by omega)

/-- Dynamic-tail read of the canonical journal encoding; the byte position
follows the segment layout of encodeJournalData_three_eq. -/
theorem encJD_dUrl (fp ts qh : Nat) (url r u d : Bytes) (hurl : url.length ≤ 2 ^ 32) :
    decodeDynBytes (encodeJournalData fp url ts qh [r, u, d]) (160) = .ok url := by
  have hU := encDynBytes_length url
  have hR := encDynBytes_length r
  have hUu := encDynBytes_length u
  have hpU := padLen_lt url.length
  have hpR := padLen_lt r.length
  have hpUu := padLen_lt u.length
  have hU64 : U64MAX = 18446744073709551615 := by norm_num [U64MAX]
  apply decodeDynBytes_read _ (natToBytesBE 32 fp ++ natToBytesBE 32 160 ++ natToBytesBE 32 ts ++ natToBytesBE 32 qh ++ natToBytesBE 32 (160 + (encDynBytes url).length))
    url (natToBytesBE 32 3 ++ (natToBytesBE 32 96 ++ (natToBytesBE 32 (96 + (encDynBytes r).length) ++ (natToBytesBE 32 (96 + (encDynBytes r).length + (encDynBytes u).length) ++ (encDynBytes r ++ (encDynBytes u ++ (encDynBytes d)))))))
    (160)
    (by rw [encodeJournalData_three_eq, List.append_assoc, List.append_assoc, List.append_assoc, List.append_assoc])
    (by simp only [List.length_append, List.length_nil, natToBytesBE_length]; try omega)
    (by omega)

/-- Word read of the canonical journal encoding at one head or array-offset
slot; the byte position follows the segment layout of
encodeJournalData_three_eq. -/
theorem encJD_wArr (fp ts qh : Nat) (url r u d : Bytes) :
    word (encodeJournalData fp url ts qh [r, u, d]) (160 + (encDynBytes url).length) = 3 := by
  have hU := encDynBytes_length url
  have hR := encDynBytes_length r
  have hUu := encDynBytes_length u
  have hpU := padLen_lt url.length
  have hpR := padLen_lt r.length
  have hpUu := padLen_lt u.length
  have hU64 : U64MAX = 18446744073709551615 := by norm_num [U64MAX]
  apply word_read _ (natToBytesBE 32 fp ++ natToBytesBE 32 160 ++ natToBytesBE 32 ts ++ natToBytesBE 32 qh ++ natToBytesBE 32 (160 + (encDynBytes url).length) ++ encDynBytes url)
    (natToBytesBE 32 96 ++ (natToBytesBE 32 (96 + (encDynBytes r).length) ++ (natToBytesBE 32 (96 + (encDynBytes r).length + (encDynBytes u).length) ++ (encDynBytes r ++ (encDynBytes u ++ (encDynBytes d))))))
    (3) (160 + (encDynBytes url).length)
    (by rw [encodeJournalData_three_eq, List.append_assoc, List.append_assoc, List.append_assoc, List.append_assoc, List.append_assoc])
    (by simp only [List.length_append, List.length_nil, natToBytesBE_length]; try omega)
    (by norm_num)

/-- Word read of the canonical journal encoding at one head or array-offset
slot; the byte position follows the segment layout of
encodeJournalData_three_eq. -/
theorem encJD_wO0 (fp ts qh : Nat) (url r u d : Bytes) :
    word (encodeJournalData fp url ts qh [r, u, d]) (160 + (encDynBytes url).length + 32 + 32 * 0) = 96 := by
  have hU := encDynBytes_length url
  have hR := encDynBytes_length r
  have hUu := encDynBytes_length u
  have hpU := padLen_lt url.length
  have hpR := padLen_lt r.length
  have hpUu := padLen_lt u.length
  have hU64 : U64MAX = 18446744073709551615 := by norm_num [U64MAX]
  apply word_read _ (natToBytesBE 32 fp ++ natToBytesBE 32 160 ++ natToBytesBE 32 ts ++ natToBytesBE 32 qh ++ natToBytesBE 32 (160 + (encDynBytes url).length) ++ encDynBytes url ++ natToBytesBE 32 3)
    (natToBytesBE 32 (96 + (encDynBytes r).length) ++ (natToBytesBE 32 (96 + (encDynBytes r).length + (encDynBytes u).length) ++ (encDynBytes r ++ (encDynBytes u ++ (encDynBytes d)))))
    (96) (160 + (encDynBytes url).length + 32 + 32 * 0)
    (by rw [encodeJournalData_three_eq, List.append_assoc, List.append_assoc, List.append_assoc, List.append_assoc, List.append_assoc, List.append_assoc])
    (by simp only [List.length_append, List.length_nil, natToBytesBE_length]; try omega)
    (by norm_num)

/-- Word read of the canonical journal encoding at one head or array-offset
slot; the byte position follows the segment layout of
encodeJournalData_three_eq. -/
theorem encJD_wO1 (fp ts qh : Nat) (url r u d : Bytes) (hr : r.length ≤ 2 ^ 32) :
    word (encodeJournalData fp url ts qh [r, u, d]) (160 + (encDynBytes url).length + 32 + 32 * 1) = 96 + (encDynBytes r).length := by
  have hU := encDynBytes_length url
  have hR := encDynBytes_length r
  have hUu := encDynBytes_length u
  have hpU := padLen_lt url.length
  have hpR := padLen_lt r.length
  have hpUu := padLen_lt u.length
  have hU64 : U64MAX = 18446744073709551615 := by norm_num [U64MAX]
  apply word_read _ (natToBytesBE 32 fp ++ natToBytesBE 32 160 ++ natToBytesBE 32 ts ++ natToBytesBE 32 qh ++ natToBytesBE 32 (160 + (encDynBytes url).length) ++ encDynBytes url ++ natToBytesBE 32 3 ++ natToBytesBE 32 96)
    (natToBytesBE 32 (96 + (encDynBytes r).length + (encDynBytes u).length) ++ (encDynBytes r ++ (encDynBytes u ++ (encDynBytes d))))
    (96 + (encDynBytes r).length) (160 + (encDynBytes url).length + 32 + 32 * 1)
    (by rw [encodeJournalData_three_eq, List.append_assoc, List.append_assoc, List.append_assoc, List.append_assoc, List.append_assoc, List.append_assoc, List.append_assoc])
    (by simp only [List.length_append, List.length_nil, natToBytesBE_length]; try omega)
    (by omega)

/-- Word read of the canonical journal encoding at one head or array-offset
slot; the byte position follows the segment layout of
encodeJournalData_three_eq. -/
theorem encJD_wO2 (fp ts qh : Nat) (url r u d : Bytes) (hr : r.length ≤ 2 ^ 32) (hu : u.length ≤ 2 ^ 32) :
    word (encodeJournalData fp url ts qh [r, u, d]) (160 + (encDynBytes url).length + 32 + 32 * 2) = 96 + (encDynBytes r).length + (encDynBytes u).length := by
  have hU := encDynBytes_length url
  have hR := encDynBytes_length r
  have hUu := encDynBytes_length u
  have hpU := padLen_lt url.length
  have hpR := padLen_lt r.length
  have hpUu := padLen_lt u.length
  have hU64 : U64MAX = 18446744073709551615 := by norm_num [U64MAX]
  apply word_read _ (natToBytesBE 32 fp ++ natToBytesBE 32 160 ++ natToBytesBE 32 ts ++ natToBytesBE 32 qh ++ natToBytesBE 32 (160 + (encDynBytes url).length) ++ encDynBytes url ++ natToBytesBE 32 3 ++ natToBytesBE 32 96 ++ natToBytesBE 32 (96 + (encDynBytes r).length))
    (encDynBytes r ++ (encDynBytes u ++ (encDynBytes d)))
    (96 + (encDynBytes r).length + (encDynBytes u).length) (160 + (encDynBytes url).length + 32 + 32 * 2)
    (by rw [encodeJournalData_three_eq, List.append_assoc, List.append_assoc, List.append_assoc, List.append_assoc, List.append_assoc, List.append_assoc, List.append_assoc, List.append_assoc])
    (by simp only [List.length_append, List.length_nil, natToBytesBE_length]; try omega)
    (by omega)

/-- Dynamic-tail read of the canonical journal encoding; the byte position
follows the segment layout of encodeJournalData_three_eq. -/
theorem encJD_dR (fp ts qh : Nat) (url r u d : Bytes) (hr : r.length ≤ 2 ^ 32) :
    decodeDynBytes (encodeJournalData fp url ts qh [r, u, d]) (160 + (encDynBytes url).length + 32 + 96) = .ok r := by
  have hU := encDynBytes_length url
  have hR := encDynBytes_length r
  have hUu := encDynBytes_length u
  have hpU := padLen_lt url.length
  have hpR := padLen_lt r.length
  have hpUu := padLen_lt u.length
  have hU64 : U64MAX = 18446744073709551615 := by norm_num [U64MAX]
  apply decodeDynBytes_read _ (natToBytesBE 32 fp ++ natToBytesBE 32 160 ++ natToBytesBE 32 ts ++ natToBytesBE 32 qh ++ natToBytesBE 32 (160 + (encDynBytes url).length) ++ encDynBytes url ++ natToBytesBE 32 3 ++ natToBytesBE 32 96 ++ natToBytesBE 32 (96 + (encDynBytes r).length) ++ natToBytesBE 32 (96 + (encDynBytes r).length + (encDynBytes u).length))
    r (encDynBytes u ++ (encDynBytes d))
    (160 + (encDynBytes url).length + 32 + 96)
    (by rw [encodeJournalData_three_eq, List.append_assoc, List.append_assoc, List.append_assoc, List.append_assoc, List.append_assoc, List.append_assoc, List.append_assoc, List.append_assoc, List.append_assoc])
    (by simp only [List.length_append, List.length_nil, natToBytesBE_length]; try omega)
    (by omega)

/-- Dynamic-tail read of the canonical journal encoding; the byte position
follows the segment layout of encodeJournalData_three_eq. -/
theorem encJD_dU (fp ts qh : Nat) (url r u d : Bytes) (hu : u.length ≤ 2 ^ 32) :
    decodeDynBytes (encodeJournalData fp url ts qh [r, u, d]) (160 + (encDynBytes url).length + 32 + (96 + (encDynBytes r).length)) = .ok u := by
  have hU := encDynBytes_length url
  have hR := encDynBytes_length r
  have hUu := encDynBytes_length u
  have hpU := padLen_lt url.length
  have hpR := padLen_lt r.length
  have hpUu := padLen_lt u.length
  have hU64 : U64MAX = 18446744073709551615 := by norm_num [U64MAX]
  apply decodeDynBytes_read _ (natToBytesBE 32 fp ++ natToBytesBE 32 160 ++ natToBytesBE 32 ts ++ natToBytesBE 32 qh ++ natToBytesBE 32 (160 + (encDynBytes url).length) ++ encDynBytes url ++ natToBytesBE 32 3 ++ natToBytesBE 32 96 ++ natToBytesBE 32 (96 + (encDynBytes r).length) ++ natToBytesBE 32 (96 + (encDynBytes r).length + (encDynBytes u).length) ++ encDynBytes r)
    u (encDynBytes d)
    (160 + (encDynBytes url).length + 32 + (96 + (encDynBytes r).length))
    (by rw [encodeJournalData_three_eq, List.append_assoc, List.append_assoc, List.append_assoc, List.append_assoc, List.append_assoc, List.append_assoc, List.append_assoc, List.append_assoc, List.append_assoc, List.append_assoc])
    (by simp only [List.length_append, List.length_nil, natToBytesBE_length]; try omega)
    (by omega)

/-- Dynamic-tail read of the canonical journal encoding; the byte position
follows the segment layout of encodeJournalData_three_eq. -/
theorem encJD_dD (fp ts qh : Nat) (url r u d : Bytes) (hd : d.length ≤ 2 ^ 32) :
    decodeDynBytes (encodeJournalData fp url ts qh [r, u, d]) (160 + (encDynBytes url).length + 32 + (96 + (encDynBytes r).length + (encDynBytes u).length)) = .ok d := by
  have hU := encDynBytes_length url
  have hR := encDynBytes_length r
  have hUu := encDynBytes_length u
  have hpU := padLen_lt url.length
  have hpR := padLen_lt r.length
  have hpUu := padLen_lt u.length
  have hU64 : U64MAX = 18446744073709551615 := by norm_num [U64MAX]
  apply decodeDynBytes_read _ (natToBytesBE 32 fp ++ natToBytesBE 32 160 ++ natToBytesBE 32 ts ++ natToBytesBE 32 qh ++ natToBytesBE 32 (160 + (encDynBytes url).length) ++ encDynBytes url ++ natToBytesBE 32 3 ++ natToBytesBE 32 96 ++ natToBytesBE 32 (96 + (encDynBytes r).length) ++ natToBytesBE 32 (96 + (encDynBytes r).length + (encDynBytes u).length) ++ encDynBytes r ++ encDynBytes u)
    d ([] : Bytes)
    (160 + (encDynBytes url).length + 32 + (96 + (encDynBytes r).length + (encDynBytes u).length))
    (by rw [encodeJournalData_three_eq, List.append_assoc, List.append_assoc, List.append_assoc, List.append_assoc, List.append_assoc, List.append_assoc, List.append_assoc, List.append_assoc, List.append_assoc, List.append_assoc, List.append_assoc, List.append_nil])
    (by simp only [List.length_append, List.length_nil, natToBytesBE_length]; try omega)
    (by omega)

/-- Length of the canonical journal encoding with a three-element
extracted-values array. -/
theorem encodeJournalData_three_length (fp ts qh : Nat) (url r u d : Bytes) :
    (encodeJournalData fp url ts qh [r, u, d]).length =
      288 + (encDynBytes url).length + (encDynBytes r).length +
        (encDynBytes u).length + (encDynBytes d).length := by
  rw [encodeJournalData_three_eq]
  simp only [List.length_append, natToBytesBE_length]
  omega

/-- Decoding the canonical encoding of a five-field journal whose extracted
values are a three-element string array recovers every field exactly. -/
theorem abiDecodeJournal_encodeJournalData (fp ts qh : Nat) (url r u d : Bytes)
    (hfp : fp < 2 ^ 256) (hts : ts < 2 ^ 256) (hqh : qh < 2 ^ 256)
    (hurl : url.length ≤ 2 ^ 32) (hr : r.length ≤ 2 ^ 32)
    (hu : u.length ≤ 2 ^ 32) (hd : d.length ≤ 2 ^ 32) :
    abiDecodeJournal (encodeJournalData fp url ts qh [r, u, d]) =
      .ok ⟨fp, url, ts, qh, [r, u, d]⟩ := by
  have hU := encDynBytes_length url
  have hR := encDynBytes_length r
  have hUu := encDynBytes_length u
  have hD := encDynBytes_length d
  have hpU := padLen_lt url.length
  have hpR := padLen_lt r.length
  have hpUu := padLen_lt u.length
  have hpD := padLen_lt d.length
  have hU64 : U64MAX = 18446744073709551615 := by norm_num [U64MAX]
  have hlen := encodeJournalData_three_length fp ts qh url r u d
  have hw0 := encJD_w0 fp ts qh url r u d hfp
  have hw32 := encJD_w32 fp ts qh url r u d
  have hw64 := encJD_w64 fp ts qh url r u d hts
  have hw96 := encJD_w96 fp ts qh url r u d hqh
  have hw128 := encJD_w128 fp ts qh url r u d hurl
  have hdUrl := encJD_dUrl fp ts qh url r u d hurl
  have hwArr := encJD_wArr fp ts qh url r u d
  have hwO0 := encJD_wO0 fp ts qh url r u d
  have hwO1 := encJD_wO1 fp ts qh url r u d hr
  have hwO2 := encJD_wO2 fp ts qh url r u d hr hu
  have hdR := encJD_dR fp ts qh url r u d hr
  have hdU := encJD_dU fp ts qh url r u d hu
  have hdD := encJD_dD fp ts qh url r u d hd
  have e2 : decodeElems (encodeJournalData fp url ts qh [r, u, d])
      (160 + (encDynBytes url).length + 32) 2 1 = .ok [d] := by
    apply decodeElems_cons _ _ 2 0 d []
    · rw [hwO2]
      omega
    · rw [hwO2]
      exact hdD
    · rfl
  have e1 : decodeElems (encodeJournalData fp url ts qh [r, u, d])
      (160 + (encDynBytes url).length + 32) 1 2 = .ok [u, d] := by
    apply decodeElems_cons _ _ 1 1 u [d]
    · rw [hwO1]
      omega
    · rw [hwO1]
      exact hdU
    · exact e2
  have e0 : decodeElems (encodeJournalData fp url ts qh [r, u, d])
      (160 + (encDynBytes url).length + 32) 0 3 = .ok [r, u, d] := by
    apply decodeElems_cons _ _ 0 2 r [u, d]
    · rw [hwO0]
      omega
    · rw [hwO0]
      exact hdR
    · exact e1
  have harr : decodeStringArray (encodeJournalData fp url ts qh [r, u, d])
      (160 + (encDynBytes url).length) = .ok [r, u, d] := by
    simp only [decodeStringArray, hwArr]
    rw [if_pos (by rw [hlen]; omega)]
    rw [if_pos (by norm_num [U64MAX] : (3 : Nat) ≤ U64MAX)]
    rw [if_pos (by rw [hlen]; omega)]
    exact e0
  simp only [abiDecodeJournal, hw0, hw32, hw64, hw96, hw128]
  rw [if_pos (by rw [hlen]; omega)]
  rw [if_pos (by norm_num [U64MAX] : (160 : Nat) ≤ U64MAX)]
  simp only [hdUrl]
  rw [if_pos (by omega : 160 + (encDynBytes url).length ≤ U64MAX)]
  simp only [harr]

/-! Decimal parsing and rendering facts. -/

/-- Value of a little-endian decimal digit list. -/
def ofDecDigits : List Nat → Nat
  | [] => 0
  | d :: l => d + 10 * ofDecDigits l

/-- Horner evaluation of ASCII digit bytes, most significant first, starting
from `acc` — the value `parseUintGo` computes when nothing reverts. -/
def decValueFrom (acc : Nat) (s : Bytes) : Nat :=
  s.foldl (fun a d => a * 10 + (d - 48)) acc

theorem decValueFrom_cons (acc d : Nat) (rest : Bytes) :
    decValueFrom acc (d :: rest) = decValueFrom (acc * 10 + (d - 48)) rest := rfl

theorem decValueFrom_append (acc : Nat) (s t : Bytes) :
    decValueFrom acc (s ++ t) = decValueFrom (decValueFrom acc s) t := by
  simp [decValueFrom, List.foldl_append]

theorem decValueFrom_le (acc : Nat) (s : Bytes) : acc ≤ decValueFrom acc s := by
  induction s generalizing acc with
  | nil => simp [decValueFrom]
  | cons d rest ih =>
    rw [decValueFrom_cons]
    have h1 : acc ≤ acc * 10 + (d - 48) := by omega
    exact Nat.le_trans h1 (ih _)

/-- The parse loop returns the Horner value when every byte is a digit and the
final value fits in a uint256 (every intermediate value is bounded by the
final one, so no checked-arithmetic step can revert). -/
theorem parseUintGo_ok (s : Bytes) : ∀ acc, (∀ x ∈ s, 48 ≤ x ∧ x ≤ 57) →
    decValueFrom acc s ≤ UINT256_MAX →
    parseUintGo acc s = .ok (decValueFrom acc s) := by
  induction s with
  | nil => intro acc _ _; rfl
  | cons d rest ih =>
    intro acc hdig hle
    have hd := hdig d (by simp)
    rw [decValueFrom_cons] at hle ⊢
    have hstep : acc * 10 + (d - 48) ≤ UINT256_MAX :=
      Nat.le_trans (decValueFrom_le _ rest) hle
    simp only [parseUintGo, if_pos hd, if_pos hstep]
    exact ih _ (fun x hx => hdig x (by simp [hx])) hle

/-- The parse loop reverts with the checked-arithmetic panic when every byte
is a digit but the value overflows a uint256. -/
theorem parseUintGo_overflow (s : Bytes) : ∀ acc, (∀ x ∈ s, 48 ≤ x ∧ x ≤ 57) →
    acc ≤ UINT256_MAX → UINT256_MAX < decValueFrom acc s →
    parseUintGo acc s = .error .arithmeticOverflow := by
  induction s with
  | nil =>
    intro acc _ hacc hover
    simp only [decValueFrom, List.foldl_nil] at hover
    omega
  | cons d rest ih =>
    intro acc hdig hacc hover
    have hd := hdig d (by simp)
    rw [decValueFrom_cons] at hover
    simp only [parseUintGo, if_pos hd]
    by_cases hstep : acc * 10 + (d - 48) ≤ UINT256_MAX
    · rw [if_pos hstep]
      exact ih _ (fun x hx => hdig x (by simp [hx])) hstep hover
    · rw [if_neg hstep]

/-- The parse loop reverts with the "Invalid number string" require reason at
the first non-digit byte, provided the digits before it have not already
overflowed. -/
theorem parseUintGo_nondigit (pre : Bytes) (c : Nat) (suf : Bytes) :
    ∀ acc, (∀ x ∈ pre, 48 ≤ x ∧ x ≤ 57) → ¬(48 ≤ c ∧ c ≤ 57) →
    decValueFrom acc pre ≤ UINT256_MAX →
    parseUintGo acc (pre ++ c :: suf) =
      .error (.requireFailed "Invalid number string") := by
  induction pre with
  | nil =>
    intro acc _ hc _
    simp only [List.nil_append, parseUintGo, if_neg hc]
  | cons d rest ih =>
    intro acc hdig hc hle
    have hd := hdig d (by simp)
    rw [decValueFrom_cons] at hle
    have hstep : acc * 10 + (d - 48) ≤ UINT256_MAX :=
      Nat.le_trans (decValueFrom_le _ rest) hle
    simp only [List.cons_append, parseUintGo, if_pos hd, if_pos hstep]
    exact ih _ (fun x hx => hdig x (by simp [hx])) hc hle

theorem decDigitsAux_spec : ∀ fuel n, n ≤ fuel →
    ofDecDigits (decDigitsAux fuel n) = n ∧
      ∀ x ∈ decDigitsAux fuel n, x < 10 := by
  intro fuel
  induction fuel with
  | zero =>
    intro n hn
    have hz : n = 0 := by omega
    subst hz
    simp [decDigitsAux, ofDecDigits]
  | succ fuel ih =>
    intro n hn
    match n with
    | 0 => simp [decDigitsAux, ofDecDigits]
    | m + 1 =>
      have hdiv : (m + 1) / 10 ≤ fuel := by
        have := Nat.div_lt_self (Nat.succ_pos m) (by norm_num : 1 < 10)
        omega
      obtain ⟨ih1, ih2⟩ := ih ((m + 1) / 10) hdiv
      constructor
      · simp only [decDigitsAux, ofDecDigits, ih1]
        omega
      · intro x hx
        simp only [decDigitsAux, List.mem_cons] at hx
        rcases hx with h | h
        · omega
        · exact ih2 x h

theorem decValueFrom_digits_rev (l : List Nat) (hl : ∀ x ∈ l, x < 10) :
    decValueFrom 0 (l.reverse.map (fun x => x + 48)) = ofDecDigits l := by
  induction l with
  | nil => rfl
  | cons d rest ih =>
    rw [List.reverse_cons, List.map_append]
    rw [decValueFrom_append]
    rw [ih (fun x hx => hl x (by simp [hx]))]
    have hd : d < 10 := hl d (by simp)
    simp only [List.map_cons, List.map_nil, decValueFrom, List.foldl_cons,
      List.foldl_nil, ofDecDigits]
    omega

theorem natToDecimalBytes_digits (n : Nat) :
    ∀ x ∈ natToDecimalBytes n, 48 ≤ x ∧ x ≤ 57 := by
  unfold natToDecimalBytes
  by_cases hn : n = 0
  · subst hn
    intro x hx
    simp at hx
    omega
  · rw [if_neg hn]
    intro x hx
    simp only [List.mem_map, List.mem_reverse] at hx
    obtain ⟨y, hy, hxy⟩ := hx
    have := (decDigitsAux_spec n n (Nat.le_refl n)).2 y hy
    omega

theorem decValue_natToDecimalBytes (n : Nat) :
    decValueFrom 0 (natToDecimalBytes n) = n := by
  unfold natToDecimalBytes
  by_cases hn : n = 0
  · subst hn
    rfl
  · rw [if_neg hn]
    rw [decValueFrom_digits_rev _ (decDigitsAux_spec n n (Nat.le_refl n)).2]
    exact (decDigitsAux_spec n n (Nat.le_refl n)).1

/-- Parsing the decimal rendering of any uint256 value recovers the value:
the round trip between `toString` on the encoder side and `parseUint` on the
contract side. -/
theorem parseUint_natToDecimalBytes (n : Nat) (h : n ≤ UINT256_MAX) :
    parseUint (natToDecimalBytes n) = .ok n := by
  unfold parseUint
  rw [parseUintGo_ok _ 0 (natToDecimalBytes_digits n)
    (by rw [decValue_natToDecimalBytes]; exact h)]
  rw [decValue_natToDecimalBytes]

theorem decDigitsAux_length_le : ∀ fuel n k, n < 10 ^ k →
    (decDigitsAux fuel n).length ≤ k := by
  intro fuel
  induction fuel with
  | zero => intro n k _; simp [decDigitsAux]
  | succ fuel ih =>
    intro n k hk
    match n with
    | 0 => simp [decDigitsAux]
    | m + 1 =>
      match k with
      | 0 => norm_num at hk
      | k + 1 =>
        simp only [decDigitsAux, List.length_cons]
        have hdiv10 : (m + 1) / 10 < 10 ^ k := by
          apply Nat.div_lt_of_lt_mul
          rw [pow_succ] at hk
          omega
        have := ih ((m + 1) / 10) k hdiv10
        omega

theorem natToDecimalBytes_length_le (n : Nat) (h : n < 10 ^ 78) :
    (natToDecimalBytes n).length ≤ 78 := by
  unfold natToDecimalBytes
  by_cases hn : n = 0
  · subst hn
    simp
  · rw [if_neg hn]
    rw [List.length_map, List.length_reverse]
    exact decDigitsAux_length_le n n 78 h

/-- Decoding the journal built by `buildJournalData` recovers the notary
fingerprint, url, timestamp, queries hash, and the three extracted values,
with the contribution count rendered in decimal. -/
theorem buildJournalData_decode (fp ts qh c : Nat) (url repo user : Bytes)
    (hfp : fp < 2 ^ 256) (hts : ts < 2 ^ 256) (hqh : qh < 2 ^ 256)
    (hc : c ≤ UINT256_MAX) (hurl : url.length ≤ 2 ^ 32)
    (hrepo : repo.length ≤ 2 ^ 32) (huser : user.length ≤ 2 ^ 32) :
    abiDecodeJournal (buildJournalData fp url ts qh repo user c) =
      .ok ⟨fp, url, ts, qh, [repo, user, natToDecimalBytes c]⟩ := by
  unfold buildJournalData
  apply abiDecodeJournal_encodeJournalData fp ts qh url repo user
    (natToDecimalBytes c) hfp hts hqh hurl hrepo huser
  have h78 : c < 10 ^ 78 := by
    have : UINT256_MAX < 10 ^ 78 := by norm_num [UINT256_MAX]
    omega
  have := natToDecimalBytes_length_le c h78
  omega

/-! Equivalence of the code decoder with the spec-side five-field schema
decoder: identical acceptance and identical decoded values, the only
difference being the spec's CodecError discrimination, which the code
collapses into the single generic decode failure. -/

theorem decodeDynBytes_eq_spec (b : Bytes) (off : Nat) :
    decodeDynBytes b off = dropErr (decodeDynBytesSpec b off) := by
  simp only [decodeDynBytes, decodeDynBytesSpec]
  by_cases h1 : off + 31 < b.length
  · rw [if_pos h1, if_pos h1]
    by_cases h2 : word b off ≤ U64MAX
    · rw [if_pos h2, if_pos h2]
      by_cases h3 : off + 32 + word b off ≤ b.length
      · rw [if_pos h3, if_pos h3]
        rfl
      · rw [if_neg h3, if_neg h3]
        rfl
    · rw [if_neg h2, if_neg h2]
      rfl
  · rw [if_neg h1, if_neg h1]
    rfl

theorem decodeElems_eq_spec (b : Bytes) (base : Nat) : ∀ k i,
    decodeElems b base i k = dropErr (decodeElemsSpec b base i k) := by
  intro k
  induction k with
  | zero => intro i; rfl
  | succ k ih =>
    intro i
    simp only [decodeElems, decodeElemsSpec]
    by_cases h : word b (base + 32 * i) ≤ U64MAX
    · rw [if_pos h, if_pos h, decodeDynBytes_eq_spec]
      cases hs : decodeDynBytesSpec b (base + word b (base + 32 * i)) with
      | error e => simp [dropErr]
      | ok s =>
        simp only [dropErr]
        rw [ih (i + 1)]
        cases hr : decodeElemsSpec b base (i + 1) k with
        | error e => simp [dropErr]
        | ok rest => simp [dropErr]
    · rw [if_neg h, if_neg h]
      rfl

theorem decodeStringArray_eq_spec (b : Bytes) (off : Nat) :
    decodeStringArray b off = dropErr (decodeStringArraySpec b off) := by
  simp only [decodeStringArray, decodeStringArraySpec]
  by_cases h1 : off + 31 < b.length
  · rw [if_pos h1, if_pos h1]
    by_cases h2 : word b off ≤ U64MAX
    · rw [if_pos h2, if_pos h2]
      by_cases h3 : off + 32 + 32 * word b off ≤ b.length
      · rw [if_pos h3, if_pos h3]
        exact decodeElems_eq_spec b (off + 32) (word b off) 0
      · rw [if_neg h3, if_neg h3]
        rfl
    · rw [if_neg h2, if_neg h2]
      rfl
  · rw [if_neg h1, if_neg h1]
    rfl

/-- The contract's journal decoder and the spec-side five-field schema decoder
agree everywhere, up to the spec's richer error discrimination. -/
theorem abiDecodeJournal_eq_spec (b : Bytes) :
    abiDecodeJournal b = dropErr (decodeJournalSpec5 b) := by
  simp only [abiDecodeJournal, decodeJournalSpec5]
  by_cases h1 : 160 ≤ b.length
  · rw [if_pos h1, if_pos h1]
    by_cases h2 : word b 32 ≤ U64MAX
    · rw [if_pos h2, if_pos h2, decodeDynBytes_eq_spec]
      cases hs : decodeDynBytesSpec b (word b 32) with
      | error e => simp [dropErr]
      | ok url =>
        simp only [dropErr]
        by_cases h3 : word b 128 ≤ U64MAX
        · rw [if_pos h3, if_pos h3, decodeStringArray_eq_spec]
          cases hr : decodeStringArraySpec b (word b 128) with
          | error e => simp [dropErr]
          | ok vals => simp [dropErr]
        · rw [if_neg h3, if_neg h3]
    · rw [if_neg h2, if_neg h2]
      rfl
  · rw [if_neg h1, if_neg h1]
    rfl

/-! Characterization of `submitContribution`. -/

/-- A `submitContribution` call succeeds exactly when the journal decodes,
carries at least three extracted values, the third parses as a uint256, the
four field checks pass, and the external verifier accepts the seal for
`IMAGE_ID` and the sha256 digest of the submitted journal bytes; the new
storage and the emitted event are then determined by the decoded fields. -/
theorem submitContribution_ok_iff (sha : Bytes → Nat) (selOk : Bool)
    (selData : Bytes) (V : Bytes → Nat → Nat → VerifyOutcome) (cfg : Config)
    (bn : Nat) (σ : ContractState) (jd sb : Bytes) (σ' : ContractState)
    (ev : ContributionVerifiedEvent) :
    submitContribution sha selOk selData V cfg bn σ jd sb = .ok (σ', ev) ↔
      ∃ j c, abiDecodeJournal jd = .ok j ∧
        ¬ j.extractedValues.length < 3 ∧
        parseUint (j.extractedValues.getD 2 []) = .ok c ∧
        validateFields cfg j.notaryKeyFingerprint j.queriesHash j.url c = .ok () ∧
        V sb IMAGE_ID (sha jd) = .ok ∧
        σ' = updateContributions σ (j.extractedValues.getD 0 [])
          (j.extractedValues.getD 1 []) c ∧
        ev = ⟨j.extractedValues.getD 1 [], c, j.url, j.timestamp, bn⟩ := by
  constructor
  · intro h
    simp only [submitContribution] at h
    cases hdec : abiDecodeJournal jd with
    | error e => rw [hdec] at h; exact absurd h (by simp)
    | ok j =>
      rw [hdec] at h
      simp only at h
      by_cases hlen : j.extractedValues.length < 3
      · rw [if_pos hlen] at h
        exact absurd h (by simp)
      · rw [if_neg hlen] at h
        cases hp : parseUint (j.extractedValues.getD 2 []) with
        | error e => rw [hp] at h; exact absurd h (by simp)
        | ok c =>
          rw [hp] at h
          simp only at h
          cases hv : validateFields cfg j.notaryKeyFingerprint j.queriesHash
              j.url c with
          | error e => rw [hv] at h; exact absurd h (by simp)
          | ok uu =>
            rw [hv] at h
            simp only at h
            cases hV : V sb IMAGE_ID (sha jd) with
            | errString rr => rw [hV] at h; exact absurd h (by simp)
            | errLowLevel dd => rw [hV] at h; exact absurd h (by simp)
            | ok =>
              rw [hV] at h
              simp only [Except.ok.injEq, Prod.mk.injEq] at h
              exact ⟨j, c, rfl, hlen, hp, hv, rfl, h.1.symm, h.2.symm⟩
  · rintro ⟨j, c, hdec, hlen, hp, hv, hV, hσ, hev⟩
    subst hσ hev
    simp only [submitContribution, hdec, if_neg hlen, hp, hv, hV]

/-- The verifier oracle influences `submitContribution` only through its
answer at the single query point `(seal, IMAGE_ID, sha256 journalData)`:
two oracles agreeing there produce identical transaction outcomes. -/
theorem submitContribution_verifier_local (sha : Bytes → Nat) (selOk : Bool)
    (selData : Bytes) (V1 V2 : Bytes → Nat → Nat → VerifyOutcome)
    (cfg : Config) (bn : Nat) (σ : ContractState) (jd sb : Bytes)
    (h : V1 sb IMAGE_ID (sha jd) = V2 sb IMAGE_ID (sha jd)) :
    submitContribution sha selOk selData V1 cfg bn σ jd sb =
      submitContribution sha selOk selData V2 cfg bn σ jd sb := by
  simp only [submitContribution]
  cases abiDecodeJournal jd with
  | error e => rfl
  | ok j =>
    simp only
    by_cases hlen : j.extractedValues.length < 3
    · rw [if_pos hlen, if_pos hlen]
    · rw [if_neg hlen, if_neg hlen]
      cases parseUint (j.extractedValues.getD 2 []) with
      | error e => rfl
      | ok c =>
        simp only
        cases validateFields cfg j.notaryKeyFingerprint j.queriesHash j.url c with
        | error e => rfl
        | ok uu =>
          simp only
          rw [h]

/-- When the journal decodes and passes parsing and validation but the
verifier rejects, `submitContribution` reverts with
`ZKProofVerificationFailed`. -/
theorem submitContribution_verifier_fails (sha : Bytes → Nat) (selOk : Bool)
    (selData : Bytes) (V : Bytes → Nat → Nat → VerifyOutcome) (cfg : Config)
    (bn : Nat) (σ : ContractState) (jd sb : Bytes) (j : DecodedJournal) (c : Nat)
    (hdec : abiDecodeJournal jd = .ok j)
    (hlen : ¬ j.extractedValues.length < 3)
    (hp : parseUint (j.extractedValues.getD 2 []) = .ok c)
    (hv : validateFields cfg j.notaryKeyFingerprint j.queriesHash j.url c = .ok ())
    (hV : V sb IMAGE_ID (sha jd) ≠ .ok) :
    ∃ reason, submitContribution sha selOk selData V cfg bn σ jd sb =
      .error (.zkProofVerificationFailed reason) := by
  simp only [submitContribution, hdec, if_neg hlen, hp, hv]
  cases hV2 : V sb IMAGE_ID (sha jd) with
  | errString rr => exact ⟨_, rfl⟩
  | errLowLevel dd => exact ⟨_, rfl⟩
  | ok => exact absurd hV2 hV

/-- When the journal decodes and passes parsing but a field check fails,
`submitContribution` reverts with exactly the validation error. -/
theorem submitContribution_validation_error (sha : Bytes → Nat) (selOk : Bool)
    (selData : Bytes) (V : Bytes → Nat → Nat → VerifyOutcome) (cfg : Config)
    (bn : Nat) (σ : ContractState) (jd sb : Bytes) (j : DecodedJournal)
    (c : Nat) (e : SubmitError)
    (hdec : abiDecodeJournal jd = .ok j)
    (hlen : ¬ j.extractedValues.length < 3)
    (hp : parseUint (j.extractedValues.getD 2 []) = .ok c)
    (hv : validateFields cfg j.notaryKeyFingerprint j.queriesHash j.url c =
      .error e) :
    submitContribution sha selOk selData V cfg bn σ jd sb = .error e := by
  simp only [submitContribution, hdec, if_neg hlen, hp, hv]

/-- Boolean success test for an Except value. -/
def isOkE {ε α : Type} : Except ε α → Bool
  | .ok _ => true
  | .error _ => false

theorem isOkE_exists {ε α : Type} (e : Except ε α) (h : isOkE e = true) :
    ∃ a, e = .ok a := by
  cases e with
  | ok a => exact ⟨a, rfl⟩
  | error x => simp [isOkE] at h

theorem dropErr_ok_inv {α : Type} (x : Except CodecError α) (a : α)
    (h : dropErr x = .ok a) : x = .ok a := by
  cases x with
  | ok b => cases h; rfl
  | error e => simp [dropErr] at h

/-- A full-pipeline call succeeds exactly when the contract call succeeds;
the final ledger is then the spec-modelled `record` of the decoded fields. -/
theorem fullPipeline_ok_iff (sha : Bytes → Nat) (selOk : Bool) (selData : Bytes)
    (V : Bytes → Nat → Nat → VerifyOutcome) (cfg : Config) (bn : Nat)
    (s : ContractState × Ledger) (jd sb : Bytes)
    (s' : ContractState × Ledger) (ev : ContributionVerifiedEvent) :
    fullPipeline sha selOk selData V cfg bn s jd sb = .ok (s', ev) ↔
      ∃ j c, abiDecodeJournal jd = .ok j ∧
        ¬ j.extractedValues.length < 3 ∧
        parseUint (j.extractedValues.getD 2 []) = .ok c ∧
        validateFields cfg j.notaryKeyFingerprint j.queriesHash j.url c = .ok () ∧
        V sb IMAGE_ID (sha jd) = .ok ∧
        s'.1 = updateContributions s.1 (j.extractedValues.getD 0 [])
          (j.extractedValues.getD 1 []) c ∧
        s'.2 = s.2.record (j.extractedValues.getD 0 [])
          (j.extractedValues.getD 1 []) c j.timestamp bn j.url ∧
        ev = ⟨j.extractedValues.getD 1 [], c, j.url, j.timestamp, bn⟩ := by
  constructor
  · intro h
    unfold fullPipeline at h
    cases hsub : submitContribution sha selOk selData V cfg bn s.1 jd sb with
    | error e => rw [hsub] at h; exact absurd h (by simp)
    | ok p =>
      rw [hsub] at h
      obtain ⟨σ', ev0⟩ := p
      obtain ⟨j, c, hdec, hlen, hp, hv, hV, hσ, hev⟩ :=
        (submitContribution_ok_iff sha selOk selData V cfg bn s.1 jd sb σ' ev0).mp hsub
      rw [hdec] at h
      rw [Except.ok.injEq, Prod.mk.injEq] at h
      refine ⟨j, c, hdec, hlen, hp, hv, hV, ?_, ?_, ?_⟩
      · rw [← h.1]
        exact hσ
      · rw [← h.1, hev]
      · rw [← h.2, hev]
  · rintro ⟨j, c, hdec, hlen, hp, hv, hV, hσ, hL, hev⟩
    have hsub : submitContribution sha selOk selData V cfg bn s.1 jd sb =
        .ok (updateContributions s.1 (j.extractedValues.getD 0 [])
          (j.extractedValues.getD 1 []) c,
          ⟨j.extractedValues.getD 1 [], c, j.url, j.timestamp, bn⟩) :=
      (submitContribution_ok_iff sha selOk selData V cfg bn s.1 jd sb _ _).mpr
        ⟨j, c, hdec, hlen, hp, hv, hV, rfl, rfl⟩
    unfold fullPipeline
    rw [hsub, hdec]
    have hs' : s' = (s'.1, s'.2) := rfl
    rw [hs', hσ, hL, hev]

/-- Two successive pipeline transactions, each applied to the rolled-forward
state of the previous one. -/
def pipelineTwice (sha : Bytes → Nat) (selOk : Bool) (selData : Bytes)
    (V : Bytes → Nat → Nat → VerifyOutcome) (cfg : Config) (bn : Nat)
    (s : ContractState × Ledger) (jd1 sb1 jd2 sb2 : Bytes) :
    ContractState × Ledger :=
  pipelineFinal sha selOk selData V cfg bn
    (pipelineFinal sha selOk selData V cfg bn s jd1 sb1) jd2 sb2

/-! Concrete fixtures used by the closed instantiations below. -/

/-- Concrete stand-in for the sha256 precompile (any function of the raw
bytes serves the role in the abstract model). -/
def shaTest (b : Bytes) : Nat := bytesToNat b % 2 ^ 256

/-- Concrete deployment configuration: notary fingerprint 7, queries hash 9,
URL pattern the two-byte string "hi". -/
def cfgTest : Config := ⟨7, 9, [104, 105]⟩

/-- Empty contract storage. -/
def sigmaTest : ContractState := ⟨fun _ _ => 0⟩

/-- Verifier oracle that accepts everything. -/
def acceptAll : Bytes → Nat → Nat → VerifyOutcome := fun _ _ _ => .ok

/-- Verifier oracle that rejects everything with a low-level revert. -/
def rejectAll : Bytes → Nat → Nat → VerifyOutcome := fun _ _ _ => .errLowLevel []

/-- Concrete journal: fingerprint 7, url "hi", timestamp 1000, queries hash 9,
extracted values ["rep", "us", "149"]. -/
def jdTest : Bytes :=
  buildJournalData 7 [104, 105] 1000 9 [114, 101, 112] [117, 115] 149

/-- The record `jdTest` decodes to. -/
def jrecTest : DecodedJournal :=
  ⟨7, [104, 105], 1000, 9, [[114, 101, 112], [117, 115], [49, 52, 57]]⟩

/-! Claim theorems. -/

/-- C1: field validation accepts iff all four checks pass — notary
fingerprint equals the expected fingerprint, queries hash equals the expected
hash, url matches the expected pattern, and the contribution count lies in
the inclusive range [1, 1000000] — the checks short-circuit in this fixed
source order (so when exactly one check is violated the call reverts with
exactly that check's named error), and a validation error is exactly the
error `submitContribution` reverts with once decoding and parsing have
succeeded. -/
theorem C1_validation_correctness (cfg : Config) (fp qh : Nat) (url : Bytes)
    (c : Nat) :
    (validateFields cfg fp qh url c = .ok () ↔
      (fp = cfg.EXPECTED_NOTARY_KEY_FINGERPRINT ∧
        qh = cfg.EXPECTED_QUERIES_HASH ∧ url = cfg.expectedUrlPattern ∧
        1 ≤ c ∧ c ≤ 1000000)) ∧
    (fp ≠ cfg.EXPECTED_NOTARY_KEY_FINGERPRINT →
      validateFields cfg fp qh url c = .error .invalidNotaryKeyFingerprint) ∧
    (fp = cfg.EXPECTED_NOTARY_KEY_FINGERPRINT →
      qh ≠ cfg.EXPECTED_QUERIES_HASH →
      validateFields cfg fp qh url c = .error .invalidQueriesHash) ∧
    (fp = cfg.EXPECTED_NOTARY_KEY_FINGERPRINT →
      qh = cfg.EXPECTED_QUERIES_HASH → url ≠ cfg.expectedUrlPattern →
      validateFields cfg fp qh url c = .error .invalidUrl) ∧
    (fp = cfg.EXPECTED_NOTARY_KEY_FINGERPRINT →
      qh = cfg.EXPECTED_QUERIES_HASH → url = cfg.expectedUrlPattern →
      (c = 0 ∨ c > 1000000) →
      validateFields cfg fp qh url c = .error .invalidContributions) ∧
    (∀ (sha : Bytes → Nat) (selOk : Bool) (selData : Bytes)
        (V : Bytes → Nat → Nat → VerifyOutcome) (bn : Nat) (σ : ContractState)
        (jd sb : Bytes) (j : DecodedJournal) (cc : Nat) (e : SubmitError),
      abiDecodeJournal jd = .ok j → ¬ j.extractedValues.length < 3 →
      parseUint (j.extractedValues.getD 2 []) = .ok cc →
      validateFields cfg j.notaryKeyFingerprint j.queriesHash j.url cc =
        .error e →
      submitContribution sha selOk selData V cfg bn σ jd sb = .error e) := by
  refine ⟨?_, ?_, ?_, ?_, ?_, ?_⟩
  · constructor
    · intro h
      unfold validateFields at h
      split_ifs at h with h1 h2 h3 h4
      · exact ⟨by omega, by omega, by tauto, by omega, by omega⟩
    · rintro ⟨h1, h2, h3, h4, h5⟩
      unfold validateFields
      rw [if_neg (by omega), if_neg (by omega), if_neg (by tauto),
        if_neg (by omega)]
  · intro h1
    unfold validateFields
    rw [if_pos h1]
  · intro h1 h2
    unfold validateFields
    rw [if_neg (by omega), if_pos h2]
  · intro h1 h2 h3
    unfold validateFields
    rw [if_neg (by omega), if_neg (by omega), if_pos h3]
  · intro h1 h2 h3 h4
    unfold validateFields
    rw [if_neg (by omega), if_neg (by omega), if_neg (by tauto), if_pos h4]
  · intro sha selOk selData V bn σ jd sb j cc e hdec hlen hp hv
    exact submitContribution_validation_error sha selOk selData V cfg bn σ jd
      sb j cc e hdec hlen hp hv

/-- Witness for C1 at a concrete configuration: a wrong fingerprint yields
exactly InvalidNotaryKeyFingerprint, and matching fields with an in-range
count are accepted. -/
theorem C1_validation_correctness_witness :
    validateFields cfgTest 1 9 [104, 105] 5 =
      .error .invalidNotaryKeyFingerprint ∧
    validateFields cfgTest 7 9 [104, 105] 5 = .ok () :=
  ⟨(C1_validation_correctness cfgTest 1 9 [104, 105] 5).2.1 (by decide),
   ((C1_validation_correctness cfgTest 7 9 [104, 105] 5).1).mpr (by decide)⟩

/-- C2: the external verifier is consulted only at the single point
`(seal, IMAGE_ID, sha256 journalData)` — the digest argument is the hash of
exactly the submitted journal bytes, not of any re-encoding — and whenever
the verifier call fails, of either failure kind, the submission reverts with
ZKProofVerificationFailed and the post-transaction storage and event log are
unchanged. -/
theorem C2_verifier_binding (sha : Bytes → Nat) (selOk : Bool)
    (selData : Bytes) (cfg : Config) (bn : Nat) (σ : ContractState)
    (jd sb : Bytes) (j : DecodedJournal) (c : Nat)
    (hdec : abiDecodeJournal jd = .ok j)
    (hlen : ¬ j.extractedValues.length < 3)
    (hp : parseUint (j.extractedValues.getD 2 []) = .ok c)
    (hv : validateFields cfg j.notaryKeyFingerprint j.queriesHash j.url c =
      .ok ()) :
    (∀ V1 V2 : Bytes → Nat → Nat → VerifyOutcome,
      V1 sb IMAGE_ID (sha jd) = V2 sb IMAGE_ID (sha jd) →
      submitContribution sha selOk selData V1 cfg bn σ jd sb =
        submitContribution sha selOk selData V2 cfg bn σ jd sb) ∧
    (∀ V : Bytes → Nat → Nat → VerifyOutcome, V sb IMAGE_ID (sha jd) ≠ .ok →
      (∃ reason, submitContribution sha selOk selData V cfg bn σ jd sb =
        .error (.zkProofVerificationFailed reason)) ∧
      submitFinalState sha selOk selData V cfg bn σ jd sb = σ ∧
      submitEvents sha selOk selData V cfg bn σ jd sb = []) := by
  constructor
  · intro V1 V2 h
    exact submitContribution_verifier_local sha selOk selData V1 V2 cfg bn σ
      jd sb h
  · intro V hV
    obtain ⟨reason, hr⟩ := submitContribution_verifier_fails sha selOk selData
      V cfg bn σ jd sb j c hdec hlen hp hv hV
    refine ⟨⟨reason, hr⟩, ?_, ?_⟩
    · unfold submitFinalState
      rw [hr]
    · unfold submitEvents
      rw [hr]

/-- Witness for C2 at a concrete journal and an always-rejecting verifier:
the submission reverts with ZKProofVerificationFailed and changes nothing. -/
theorem C2_verifier_binding_witness :
    abiDecodeJournal jdTest = .ok jrecTest ∧
    (∃ reason,
      submitContribution shaTest false [] rejectAll cfgTest 5 sigmaTest jdTest
        [1, 2, 3] = .error (.zkProofVerificationFailed reason)) ∧
    submitFinalState shaTest false [] rejectAll cfgTest 5 sigmaTest jdTest
      [1, 2, 3] = sigmaTest ∧
    submitEvents shaTest false [] rejectAll cfgTest 5 sigmaTest jdTest
      [1, 2, 3] = [] := by
  have h := (C2_verifier_binding shaTest false [] cfgTest 5 sigmaTest jdTest
    [1, 2, 3] jrecTest 149 (by decide) (by decide) (by decide) (by decide)).2
    rejectAll (by decide)
  exact ⟨by decide, h.1, h.2.1, h.2.2⟩

/-- C3: every reverting submission — malformed journal bytes, parsing
failure, any field-validation rejection, or verifier rejection — leaves the
contract storage, the spec-modelled ledger (including its history and the
global verified-contributions counter) and the event log exactly as they
were before the call. -/
theorem C3_atomicity (sha : Bytes → Nat) (selOk : Bool) (selData : Bytes)
    (V : Bytes → Nat → Nat → VerifyOutcome) (cfg : Config) (bn : Nat)
    (σ : ContractState) (L : Ledger) (jd sb : Bytes) (e : SubmitError)
    (h : submitContribution sha selOk selData V cfg bn σ jd sb = .error e) :
    submitFinalState sha selOk selData V cfg bn σ jd sb = σ ∧
    submitEvents sha selOk selData V cfg bn σ jd sb = [] ∧
    fullPipeline sha selOk selData V cfg bn (σ, L) jd sb = .error e ∧
    pipelineFinal sha selOk selData V cfg bn (σ, L) jd sb = (σ, L) ∧
    pipelineEvents sha selOk selData V cfg bn (σ, L) jd sb = [] ∧
    (pipelineFinal sha selOk selData V cfg bn
      (σ, L) jd sb).2.totalVerifiedContributions =
      L.totalVerifiedContributions ∧
    (pipelineFinal sha selOk selData V cfg bn (σ, L) jd sb).2.history =
      L.history := by
  have hfp : fullPipeline sha selOk selData V cfg bn (σ, L) jd sb =
      .error e := by
    unfold fullPipeline
    rw [show ((σ, L) : ContractState × Ledger).1 = σ from rfl, h]
  have hpf : pipelineFinal sha selOk selData V cfg bn (σ, L) jd sb = (σ, L) := by
    unfold pipelineFinal
    rw [hfp]
  refine ⟨?_, ?_, hfp, hpf, ?_, ?_, ?_⟩
  · unfold submitFinalState
    rw [h]
  · unfold submitEvents
    rw [h]
  · unfold pipelineEvents
    rw [hfp]
  · rw [hpf]
  · rw [hpf]

/-- Witness for C3: malformed (empty) journal bytes revert with the generic
decode failure and leave contract storage, ledger and events unchanged. -/
theorem C3_atomicity_witness :
    submitContribution shaTest false [] acceptAll cfgTest 5 sigmaTest [] [] =
      .error .abiDecodeFailed ∧
    pipelineFinal shaTest false [] acceptAll cfgTest 5
      (sigmaTest, Ledger.empty) [] [] = (sigmaTest, Ledger.empty) ∧
    pipelineEvents shaTest false [] acceptAll cfgTest 5
      (sigmaTest, Ledger.empty) [] [] = [] := by
  have hsub : submitContribution shaTest false [] acceptAll cfgTest 5 sigmaTest
      [] [] = .error .abiDecodeFailed := rfl
  have h := C3_atomicity shaTest false [] acceptAll cfgTest 5 sigmaTest
    Ledger.empty [] [] .abiDecodeFailed hsub
  exact ⟨hsub, h.2.2.2.1, h.2.2.2.2.1⟩

/-- C4: for two successful submissions keyed by the same (repository,
username) pair carrying counts X then Y, the stored mapping value and the
spec-modelled ledger's latest value after both transactions equal Y — the
later submission wins even when Y < X — and a history that was empty for
this username before holds exactly the two records in insertion order. -/
theorem C4_last_write_wins (sha : Bytes → Nat) (selOk : Bool)
    (selData : Bytes) (V : Bytes → Nat → Nat → VerifyOutcome) (cfg : Config)
    (bn : Nat) (σ0 : ContractState) (L0 : Ledger) (jd1 sb1 jd2 sb2 : Bytes)
    (j1 j2 : DecodedJournal) (X Y : Nat) (repo user : Bytes)
    (hdec1 : abiDecodeJournal jd1 = .ok j1)
    (hr1 : j1.extractedValues.getD 0 [] = repo)
    (hu1 : j1.extractedValues.getD 1 [] = user)
    (hp1 : parseUint (j1.extractedValues.getD 2 []) = .ok X)
    (hdec2 : abiDecodeJournal jd2 = .ok j2)
    (hr2 : j2.extractedValues.getD 0 [] = repo)
    (hu2 : j2.extractedValues.getD 1 [] = user)
    (hp2 : parseUint (j2.extractedValues.getD 2 []) = .ok Y)
    (h1 : isOkE (fullPipeline sha selOk selData V cfg bn (σ0, L0) jd1 sb1) =
      true)
    (h2 : isOkE (fullPipeline sha selOk selData V cfg bn
      (pipelineFinal sha selOk selData V cfg bn (σ0, L0) jd1 sb1) jd2 sb2) =
      true)
    (hh : L0.history user = []) :
    (pipelineTwice sha selOk selData V cfg bn (σ0, L0) jd1 sb1 jd2
        sb2).1.contributionsByRepoAndUser repo user = Y ∧
    (pipelineTwice sha selOk selData V cfg bn (σ0, L0) jd1 sb1 jd2
        sb2).2.latest repo user = Y ∧
    (pipelineTwice sha selOk selData V cfg bn (σ0, L0) jd1 sb1 jd2
        sb2).2.history user =
      [⟨repo, user, X, j1.timestamp, bn, j1.url⟩,
       ⟨repo, user, Y, j2.timestamp, bn, j2.url⟩] ∧
    (pipelineTwice sha selOk selData V cfg bn (σ0, L0) jd1 sb1 jd2
        sb2).2.count user = 2 := by
  obtain ⟨⟨s1, ev1⟩, hok1⟩ := isOkE_exists _ h1
  have hpf1 : pipelineFinal sha selOk selData V cfg bn (σ0, L0) jd1 sb1 = s1 := by
    unfold pipelineFinal
    rw [hok1]
  rw [hpf1] at h2
  obtain ⟨⟨s2, ev2⟩, hok2⟩ := isOkE_exists _ h2
  have hpf2 : pipelineFinal sha selOk selData V cfg bn s1 jd2 sb2 = s2 := by
    unfold pipelineFinal
    rw [hok2]
  have htw : pipelineTwice sha selOk selData V cfg bn (σ0, L0) jd1 sb1 jd2 sb2
      = s2 := by
    unfold pipelineTwice
    rw [hpf1, hpf2]
  obtain ⟨ja, ca, hdeca, _, hpa, _, _, hσ1, hL1, _⟩ :=
    (fullPipeline_ok_iff sha selOk selData V cfg bn (σ0, L0) jd1 sb1 s1
      ev1).mp hok1
  obtain ⟨jb, cb, hdecb, _, hpb, _, _, hσ2, hL2, _⟩ :=
    (fullPipeline_ok_iff sha selOk selData V cfg bn s1 jd2 sb2 s2 ev2).mp hok2
  have hja : ja = j1 := by
    rw [hdec1] at hdeca
    exact (Except.ok.inj hdeca).symm
  have hjb : jb = j2 := by
    rw [hdec2] at hdecb
    exact (Except.ok.inj hdecb).symm
  subst hja hjb
  have hca : ca = X := Except.ok.inj (hpa.symm.trans hp1)
  have hcb : cb = Y := Except.ok.inj (hpb.symm.trans hp2)
  subst hca hcb
  rw [hr1, hu1] at hσ1 hL1
  rw [hr2, hu2] at hσ2 hL2
  rw [htw]
  refine ⟨?_, ?_, ?_, ?_⟩
  · rw [hσ2]
    simp [updateContributions]
  · rw [hL2]
    simp [Ledger.record]
  · rw [hL2, hL1]
    simp [Ledger.record, hh]
  · unfold Ledger.count
    rw [hL2, hL1]
    simp [Ledger.record, hh]

/-- Witness for C4: submitting counts 5 then 3 for the same key leaves the
stored value 3, not max(5, 3), and a two-record history in order. -/
theorem C4_last_write_wins_witness :
    (pipelineTwice shaTest false [] acceptAll cfgTest 5
        (sigmaTest, Ledger.empty)
        (buildJournalData 7 [104, 105] 1000 9 [114] [117] 5) []
        (buildJournalData 7 [104, 105] 2000 9 [114] [117] 3) []).1.contributionsByRepoAndUser
      [114] [117] = 3 ∧
    (pipelineTwice shaTest false [] acceptAll cfgTest 5
        (sigmaTest, Ledger.empty)
        (buildJournalData 7 [104, 105] 1000 9 [114] [117] 5) []
        (buildJournalData 7 [104, 105] 2000 9 [114] [117] 3) []).2.latest
      [114] [117] = 3 ∧
    (pipelineTwice shaTest false [] acceptAll cfgTest 5
        (sigmaTest, Ledger.empty)
        (buildJournalData 7 [104, 105] 1000 9 [114] [117] 5) []
        (buildJournalData 7 [104, 105] 2000 9 [114] [117] 3) []).2.history
      [117] =
      [⟨[114], [117], 5, 1000, 5, [104, 105]⟩,
       ⟨[114], [117], 3, 2000, 5, [104, 105]⟩] ∧
    (pipelineTwice shaTest false [] acceptAll cfgTest 5
        (sigmaTest, Ledger.empty)
        (buildJournalData 7 [104, 105] 1000 9 [114] [117] 5) []
        (buildJournalData 7 [104, 105] 2000 9 [114] [117] 3) []).2.count
      [117] = 2 := by
  exact C4_last_write_wins shaTest false [] acceptAll cfgTest 5 sigmaTest
    Ledger.empty (buildJournalData 7 [104, 105] 1000 9 [114] [117] 5) []
    (buildJournalData 7 [104, 105] 2000 9 [114] [117] 3) []
    ⟨7, [104, 105], 1000, 9, [[114], [117], [53]]⟩
    ⟨7, [104, 105], 2000, 9, [[114], [117], [51]]⟩
    5 3 [114] [117]
    (by decide) rfl rfl (by decide) (by decide) rfl rfl (by decide)
    rfl rfl rfl

/-- C5: every accepted submission increments the spec-modelled global
verified-contributions counter by exactly 1, and the latest, history, count
and contract-storage accessors all reflect the newly recorded entry; exactly
one ContributionVerified event is emitted. -/
theorem C5_counter_and_accessors (sha : Bytes → Nat) (selOk : Bool)
    (selData : Bytes) (V : Bytes → Nat → Nat → VerifyOutcome) (cfg : Config)
    (bn : Nat) (σ : ContractState) (L : Ledger) (jd sb : Bytes)
    (j : DecodedJournal) (c : Nat) (repo user : Bytes)
    (hdec : abiDecodeJournal jd = .ok j)
    (hr : j.extractedValues.getD 0 [] = repo)
    (hu : j.extractedValues.getD 1 [] = user)
    (hp : parseUint (j.extractedValues.getD 2 []) = .ok c)
    (hok : isOkE (fullPipeline sha selOk selData V cfg bn (σ, L) jd sb) =
      true) :
    (pipelineFinal sha selOk selData V cfg bn
        (σ, L) jd sb).2.totalVerifiedContributions =
      L.totalVerifiedContributions + 1 ∧
    (pipelineFinal sha selOk selData V cfg bn (σ, L) jd sb).2.latest repo user
      = c ∧
    (pipelineFinal sha selOk selData V cfg bn (σ, L) jd sb).2.history user =
      L.history user ++ [⟨repo, user, c, j.timestamp, bn, j.url⟩] ∧
    (pipelineFinal sha selOk selData V cfg bn (σ, L) jd sb).2.count user =
      L.count user + 1 ∧
    (pipelineFinal sha selOk selData V cfg bn
        (σ, L) jd sb).1.contributionsByRepoAndUser repo user = c ∧
    pipelineEvents sha selOk selData V cfg bn (σ, L) jd sb =
      [⟨user, c, j.url, j.timestamp, bn⟩] := by
  obtain ⟨⟨s', ev⟩, hok'⟩ := isOkE_exists _ hok
  have hpf : pipelineFinal sha selOk selData V cfg bn (σ, L) jd sb = s' := by
    unfold pipelineFinal
    rw [hok']
  obtain ⟨ja, ca, hdeca, _, hpa, _, _, hσ, hL, hev⟩ :=
    (fullPipeline_ok_iff sha selOk selData V cfg bn (σ, L) jd sb s' ev).mp hok'
  have hja : ja = j := by
    rw [hdec] at hdeca
    exact (Except.ok.inj hdeca).symm
  subst hja
  have hca : ca = c := Except.ok.inj (hpa.symm.trans hp)
  subst hca
  rw [hr, hu] at hσ hL
  rw [hu] at hev
  rw [hpf]
  refine ⟨?_, ?_, ?_, ?_, ?_, ?_⟩
  · unfold Ledger.totalVerifiedContributions
    rw [hL]
    simp [Ledger.record]
  · rw [hL]
    simp [Ledger.record]
  · rw [hL]
    simp [Ledger.record]
  · unfold Ledger.count
    rw [hL]
    simp [Ledger.record]
  · rw [hσ]
    simp [updateContributions]
  · unfold pipelineEvents
    rw [hok', hev]

/-- Witness for C5 at a concrete accepted submission: counter goes from 0 to
1 and every accessor shows the new entry. -/
theorem C5_counter_and_accessors_witness :
    (pipelineFinal shaTest false [] acceptAll cfgTest 5
        (sigmaTest, Ledger.empty) jdTest []).2.totalVerifiedContributions =
      Ledger.empty.totalVerifiedContributions + 1 ∧
    (pipelineFinal shaTest false [] acceptAll cfgTest 5
        (sigmaTest, Ledger.empty) jdTest []).2.latest [114, 101, 112]
      [117, 115] = 149 ∧
    (pipelineFinal shaTest false [] acceptAll cfgTest 5
        (sigmaTest, Ledger.empty) jdTest []).2.count [117, 115] =
      Ledger.empty.count [117, 115] + 1 ∧
    (pipelineFinal shaTest false [] acceptAll cfgTest 5
        (sigmaTest, Ledger.empty) jdTest []).1.contributionsByRepoAndUser
      [114, 101, 112] [117, 115] = 149 ∧
    pipelineEvents shaTest false [] acceptAll cfgTest 5
      (sigmaTest, Ledger.empty) jdTest [] =
      [⟨[117, 115], 149, [104, 105], 1000, 5⟩] := by
  have h := C5_counter_and_accessors shaTest false [] acceptAll cfgTest 5
    sigmaTest Ledger.empty jdTest [] jrecTest 149 [114, 101, 112] [117, 115]
    (by decide) rfl rfl (by decide) rfl
  exact ⟨h.1, h.2.1, h.2.2.2.1, h.2.2.2.2.1, h.2.2.2.2.2⟩

/-- C6 counterexample: a journal produced by the repository's own encoder is
accepted by the contract's decoder, yet rejected by the decoder for the
eight-field layout (with a method field and top-level repository, username
and contributions fields) that the claim describes — so the schema consumed
by the code is not the claimed eight-field one. -/
theorem C6_eight_field_counterexample :
    abiDecodeJournal jdTest = .ok jrecTest ∧
    decodeJournalSpec8 jdTest = .error () := by
  constructor
  · decide
  · decide

/-- C6 (amended): the canonical journal layout is the five-field head/tail
tuple bytes32 notaryKeyFingerprint, string url, uint256 timestamp, bytes32
queriesHash, string[] extractedValues — the contract decoder agrees with the
schema decoder for this field list on every byte sequence, and the encoder
produces exactly this layout, with repository, username and the decimal
contribution string as the three array elements. -/
theorem C6_five_field_schema :
    (∀ b : Bytes, abiDecodeJournal b = dropErr (decodeJournalSpec5 b)) ∧
    (∀ (fp ts qh c : Nat) (url repo user : Bytes),
      fp < 2 ^ 256 → ts < 2 ^ 256 → qh < 2 ^ 256 → c ≤ UINT256_MAX →
      url.length ≤ 2 ^ 32 → repo.length ≤ 2 ^ 32 → user.length ≤ 2 ^ 32 →
      decodeJournalSpec5 (buildJournalData fp url ts qh repo user c) =
        .ok ⟨fp, url, ts, qh, [repo, user, natToDecimalBytes c]⟩) := by
  constructor
  · exact abiDecodeJournal_eq_spec
  · intro fp ts qh c url repo user hfp hts hqh hc hurl hrepo huser
    apply dropErr_ok_inv
    rw [← abiDecodeJournal_eq_spec]
    exact buildJournalData_decode fp ts qh c url repo user hfp hts hqh hc hurl
      hrepo huser

/-- Witness for the amended C6 at a concrete record: the five-field schema
decoder recovers exactly the encoded fields. -/
theorem C6_five_field_schema_witness :
    decodeJournalSpec5 jdTest = .ok jrecTest := by
  have h := C6_five_field_schema.2 7 1000 9 149 [104, 105] [114, 101, 112]
    [117, 115] (by norm_num) (by norm_num) (by norm_num)
    (by norm_num [UINT256_MAX]) (by norm_num) (by norm_num) (by norm_num)
  exact h

/-- C7: the encoder and decoder form a lossless round trip — decoding the
bytes built from any well-formed record recovers the notary fingerprint, the
url, the timestamp, the queries hash and the three extracted values exactly,
and parsing the decimal contribution string recovers the count. -/
theorem C7_roundtrip (fp ts qh c : Nat) (url repo user : Bytes)
    (hfp : fp ≤ UINT256_MAX) (hts : ts ≤ UINT256_MAX) (hqh : qh ≤ UINT256_MAX)
    (hc : c ≤ UINT256_MAX) (hurl : url.length ≤ 2 ^ 32)
    (hrepo : repo.length ≤ 2 ^ 32) (huser : user.length ≤ 2 ^ 32) :
    abiDecodeJournal (buildJournalData fp url ts qh repo user c) =
      .ok ⟨fp, url, ts, qh, [repo, user, natToDecimalBytes c]⟩ ∧
    parseUint (natToDecimalBytes c) = .ok c := by
  have hlt : ∀ n : Nat, n ≤ UINT256_MAX → n < 2 ^ 256 := by
    intro n h
    have : UINT256_MAX < 2 ^ 256 := by norm_num [UINT256_MAX]
    omega
  exact ⟨buildJournalData_decode fp ts qh c url repo user (hlt fp hfp)
      (hlt ts hts) (hlt qh hqh) hc hurl hrepo huser,
    parseUint_natToDecimalBytes c hc⟩

/-- Witness for C7 at a concrete record. -/
theorem C7_roundtrip_witness :
    abiDecodeJournal (buildJournalData 7 [104, 105] 1000 9 [114, 101, 112]
      [117, 115] 149) =
      .ok ⟨7, [104, 105], 1000, 9,
        [[114, 101, 112], [117, 115], natToDecimalBytes 149]⟩ ∧
    parseUint (natToDecimalBytes 149) = .ok 149 :=
  C7_roundtrip 7 1000 9 149 [104, 105] [114, 101, 112] [117, 115]
    (by norm_num [UINT256_MAX]) (by norm_num [UINT256_MAX])
    (by norm_num [UINT256_MAX]) (by norm_num [UINT256_MAX]) (by norm_num)
    (by norm_num) (by norm_num)

/-- Truncated input: a single 32-byte word, shorter than the 160-byte head. -/
def bTrunc : Bytes := natToBytesBE 32 0

/-- Malformed input: a full 160-byte head whose url offset word (2 to the 70)
exceeds the decoder's offset bound. -/
def bMalformed : Bytes :=
  natToBytesBE 32 7 ++ natToBytesBE 32 (2 ^ 70) ++ natToBytesBE 32 0 ++
    natToBytesBE 32 0 ++ natToBytesBE 32 0

/-- C8 counterexample: a truncated input and a malformed-offset input are
rejected by the contract decoder with one and the same generic failure value
— the code does not surface the distinguishable CodecError reasons the claim
describes (shown by the spec-side decoder, which does tell them apart). -/
theorem C8_error_discrimination_counterexample :
    abiDecodeJournal bTrunc = .error () ∧
    abiDecodeJournal bMalformed = .error () ∧
    abiDecodeJournal bTrunc = abiDecodeJournal bMalformed ∧
    decodeJournalSpec5 bTrunc = .error .Truncated ∧
    decodeJournalSpec5 bMalformed = .error .Malformed := by
  refine ⟨by decide, by decide, by decide, by decide, by decide⟩

/-- C8 (amended): every byte sequence the five-field schema rejects makes the
contract decoder fail, but with the single generic (data-less) abi.decode
revert: any two rejected inputs produce the identical failure value, so
Malformed and Truncated are not distinguishable at the code level. -/
theorem C8_generic_decode_failure :
    (∀ (b : Bytes) (e : CodecError), decodeJournalSpec5 b = .error e →
      abiDecodeJournal b = .error ()) ∧
    (∀ b1 b2 : Bytes, isOkE (abiDecodeJournal b1) = false →
      isOkE (abiDecodeJournal b2) = false →
      abiDecodeJournal b1 = abiDecodeJournal b2) := by
  constructor
  · intro b e h
    rw [abiDecodeJournal_eq_spec, h]
    rfl
  · intro b1 b2 h1 h2
    cases ha : abiDecodeJournal b1 with
    | ok x => rw [ha] at h1; simp [isOkE] at h1
    | error u =>
      cases hb : abiDecodeJournal b2 with
      | ok y => rw [hb] at h2; simp [isOkE] at h2
      | error v => cases u; cases v; rfl

/-- Witness for the amended C8: the schema rejection of the truncated input
transfers to the generic code-level failure. -/
theorem C8_generic_decode_failure_witness :
    abiDecodeJournal bTrunc = .error () :=
  C8_generic_decode_failure.1 bTrunc .Truncated (by decide)

/-- Seventy-eight ASCII nines followed by a lowercase a: the digits overflow
a uint256 before the scan reaches the non-digit byte. -/
def sNines : Bytes := List.replicate 78 57 ++ [97]

/-- Journal whose contribution string is `sNines`. -/
def jdOverflowNonDigit : Bytes :=
  encodeJournalData 7 [104, 105] 1000 9 [[114], [117], sNines]

/-- C9 counterexample: a string that does contain a non-digit byte reverts
with the checked-arithmetic panic, not with "Invalid number string", because
the 78 leading nines overflow first — also at the whole-submission level. -/
theorem C9_nondigit_counterexample :
    97 ∈ sNines ∧ ¬ (48 ≤ 97 ∧ 97 ≤ 57) ∧
    parseUint sNines = .error .arithmeticOverflow ∧
    parseUint sNines ≠ .error (.requireFailed "Invalid number string") ∧
    submitContribution shaTest false [] acceptAll cfgTest 5 sigmaTest
      jdOverflowNonDigit [] = .error .arithmeticOverflow := by
  refine ⟨by decide, by decide, by decide, by decide, ?_⟩
  rfl

/-- C9 (amended): parseUint returns the decimal value of every all-digit
string whose value fits a uint256 (in particular the empty string parses to
0, which the bounds check then rejects, and leading zeros are accepted); a
string with a non-digit byte reverts with "Invalid number string" provided
the digits before the first non-digit do not already overflow; and an
all-digit string whose value exceeds the uint256 range reverts on checked
arithmetic overflow rather than wrapping. -/
theorem C9_parseUint_behavior (s pre suf : Bytes) (c : Nat) :
    ((∀ x ∈ s, 48 ≤ x ∧ x ≤ 57) → decValueFrom 0 s ≤ UINT256_MAX →
      parseUint s = .ok (decValueFrom 0 s)) ∧
    parseUint [] = .ok 0 ∧
    parseUint (48 :: s) = parseUint s ∧
    ((∀ x ∈ pre, 48 ≤ x ∧ x ≤ 57) → ¬(48 ≤ c ∧ c ≤ 57) →
      decValueFrom 0 pre ≤ UINT256_MAX →
      parseUint (pre ++ c :: suf) =
        .error (.requireFailed "Invalid number string")) ∧
    ((∀ x ∈ s, 48 ≤ x ∧ x ≤ 57) → UINT256_MAX < decValueFrom 0 s →
      parseUint s = .error .arithmeticOverflow) ∧
    (∀ cfg : Config,
      validateFields cfg cfg.EXPECTED_NOTARY_KEY_FINGERPRINT
        cfg.EXPECTED_QUERIES_HASH cfg.expectedUrlPattern 0 =
        .error .invalidContributions) := by
  refine ⟨?_, rfl, ?_, ?_, ?_, ?_⟩
  · intro hd hle
    exact parseUintGo_ok s 0 hd hle
  · show parseUintGo 0 (48 :: s) = parseUintGo 0 s
    norm_num [parseUintGo, UINT256_MAX]
  · intro hd hc hle
    exact parseUintGo_nondigit pre c suf 0 hd hc hle
  · intro hd hover
    exact parseUintGo_overflow s 0 hd (by norm_num [UINT256_MAX]) hover
  · intro cfg
    unfold validateFields
    rw [if_neg (fun h => h rfl), if_neg (fun h => h rfl),
      if_neg (fun h => h rfl), if_pos (Or.inl rfl)]

/-- Witness for the amended C9: the digits of "149" parse to 149, and a short
digit prefix followed by a non-digit gives the require failure. -/
theorem C9_parseUint_behavior_witness :
    parseUint [49, 52, 57] = .ok (decValueFrom 0 [49, 52, 57]) ∧
    decValueFrom 0 [49, 52, 57] = 149 ∧
    parseUint ([53, 53] ++ 97 :: []) =
      .error (.requireFailed "Invalid number string") :=
  ⟨(C9_parseUint_behavior [49, 52, 57] [53, 53] [] 97).1 (by decide)
      (by decide),
   by decide,
   (C9_parseUint_behavior [49, 52, 57] [53, 53] [] 97).2.2.2.1 (by decide)
      (by decide) (by decide)⟩

/-- Journal with the three agreed extracted values ["r", "u", "5"]. -/
def jd3 : Bytes := encodeJournalData 7 [104, 105] 1000 9 [[114], [117], [53]]

/-- The same journal with one extra fourth extracted value "z". -/
def jd4 : Bytes :=
  encodeJournalData 7 [104, 105] 1000 9 [[114], [117], [53], [122]]

/-- Verifier oracle bound to the digest of `jd3`, as a real proof would be
bound to the exact journal bytes it covers. -/
def Vbind : Bytes → Nat → Nat → VerifyOutcome :=
  fun _ _ dg => if dg = shaTest jd3 then .ok else .errLowLevel []

/-- C10 counterexample: two submissions whose decoded arrays agree on the
first three entries and differ only in a fourth entry do not produce
identical results — the journal digest covers all bytes, so a verifier bound
to the first journal accepts it but rejects the second with
ZKProofVerificationFailed. -/
theorem C10_fourth_entry_counterexample :
    abiDecodeJournal jd3 = .ok ⟨7, [104, 105], 1000, 9, [[114], [117], [53]]⟩ ∧
    abiDecodeJournal jd4 =
      .ok ⟨7, [104, 105], 1000, 9, [[114], [117], [53], [122]]⟩ ∧
    ([[114], [117], [53], [122]] : List Bytes).take 3 =
      ([[114], [117], [53]] : List Bytes).take 3 ∧
    isOkE (submitContribution shaTest false [] Vbind cfgTest 5 sigmaTest jd3
      []) = true ∧
    (match submitContribution shaTest false [] Vbind cfgTest 5 sigmaTest jd4
        [] with
      | .error (.zkProofVerificationFailed _) => True
      | _ => False) := by
  refine ⟨by decide, by decide, by decide, rfl, ?_⟩
  exact trivial

/-- First three entries of two lists with equal three-element prefixes agree
(with the decoder's default for missing entries). -/
theorem getD_take3 (l : List Bytes) :
    (l.take 3).getD 0 [] = l.getD 0 [] ∧
    (l.take 3).getD 1 [] = l.getD 1 [] ∧
    (l.take 3).getD 2 [] = l.getD 2 [] := by
  match l with
  | [] => exact ⟨rfl, rfl, rfl⟩
  | [a] => exact ⟨rfl, rfl, rfl⟩
  | [a, b] => exact ⟨rfl, rfl, rfl⟩
  | a :: b :: c :: t => exact ⟨rfl, rfl, rfl⟩

/-- C10 (amended): a decoded array with fewer than three entries reverts with
"Invalid extracted values length" before any field validation or verifier
call (for every configuration and every verifier oracle); for arrays with at
least three entries, the stored state and the emitted event of two accepted
submissions agreeing on the scalar fields and the first three entries are
identical — but entries at index 3 or beyond still enter the journal digest,
so verifier acceptance itself may differ (see the counterexample). -/
theorem C10_extracted_values (sha : Bytes → Nat) (selOk : Bool)
    (selData : Bytes) (V : Bytes → Nat → Nat → VerifyOutcome) (cfg : Config)
    (bn : Nat) (σ : ContractState) (jd sb : Bytes) (j : DecodedJournal)
    (hdec : abiDecodeJournal jd = .ok j) :
    (j.extractedValues.length < 3 →
      ∀ (W : Bytes → Nat → Nat → VerifyOutcome) (cfg2 : Config),
        submitContribution sha selOk selData W cfg2 bn σ jd sb =
          .error (.requireFailed "Invalid extracted values length")) ∧
    (∀ (jd2 : Bytes) (j2 : DecodedJournal) (σ1 σ2 : ContractState)
        (ev1 ev2 : ContributionVerifiedEvent),
      abiDecodeJournal jd2 = .ok j2 →
      j2.notaryKeyFingerprint = j.notaryKeyFingerprint → j2.url = j.url →
      j2.timestamp = j.timestamp → j2.queriesHash = j.queriesHash →
      j2.extractedValues.take 3 = j.extractedValues.take 3 →
      submitContribution sha selOk selData V cfg bn σ jd sb = .ok (σ1, ev1) →
      submitContribution sha selOk selData V cfg bn σ jd2 sb = .ok (σ2, ev2) →
      σ1 = σ2 ∧ ev1 = ev2) := by
  constructor
  · intro hlen W cfg2
    simp only [submitContribution, hdec, if_pos hlen]
  · intro jd2 j2 σ1 σ2 ev1 ev2 hdec2 hfp2 hurl2 hts2 hqh2 htake hok1 hok2
    obtain ⟨ja, ca, hdeca, _, hpa, _, _, hσ1, hev1⟩ :=
      (submitContribution_ok_iff sha selOk selData V cfg bn σ jd sb σ1
        ev1).mp hok1
    obtain ⟨jb, cb, hdecb, _, hpb, _, _, hσ2, hev2⟩ :=
      (submitContribution_ok_iff sha selOk selData V cfg bn σ jd2 sb σ2
        ev2).mp hok2
    have hja : ja = j := by
      rw [hdec] at hdeca
      exact (Except.ok.inj hdeca).symm
    have hjb : jb = j2 := by
      rw [hdec2] at hdecb
      exact (Except.ok.inj hdecb).symm
    rw [hja] at hpa hσ1 hev1
    rw [hjb] at hpb hσ2 hev2
    have hg0 : j2.extractedValues.getD 0 [] = j.extractedValues.getD 0 [] := by
      rw [← (getD_take3 j2.extractedValues).1, ← (getD_take3 j.extractedValues).1,
        htake]
    have hg1 : j2.extractedValues.getD 1 [] = j.extractedValues.getD 1 [] := by
      rw [← (getD_take3 j2.extractedValues).2.1,
        ← (getD_take3 j.extractedValues).2.1, htake]
    have hg2 : j2.extractedValues.getD 2 [] = j.extractedValues.getD 2 [] := by
      rw [← (getD_take3 j2.extractedValues).2.2,
        ← (getD_take3 j.extractedValues).2.2, htake]
    have hc : cb = ca := by
      rw [hg2] at hpb
      exact Except.ok.inj (hpb.symm.trans hpa)
    subst hc
    constructor
    · rw [hσ1, hσ2, hg0, hg1]
    · rw [hev1, hev2, hg1, hurl2, hts2]

/-- Witness for the amended C10: a two-entry extracted array reverts with the
length require reason, independently of configuration and verifier. -/
theorem C10_extracted_values_witness :
    submitContribution shaTest false [] acceptAll cfgTest 5 sigmaTest
      (encodeJournalData 7 [104, 105] 1000 9 [[114], [117]]) [] =
      .error (.requireFailed "Invalid extracted values length") :=
  (C10_extracted_values shaTest false [] acceptAll cfgTest 5 sigmaTest
    (encodeJournalData 7 [104, 105] 1000 9 [[114], [117]]) []
    ⟨7, [104, 105], 1000, 9, [[114], [117]]⟩ (by decide)).1 (by decide)
    acceptAll cfgTest

end ZkGithub







